import Mathlib

/-!
The package lambdaurl: an `http.HandlerFunc` behind an AWS Lambda Function URL

A shallow embedding of `wrapper.go` (package `lambdaurl`).

The package is glue around the Go standard library, so the development has two layers:

* `Go.*` : executable models of the library routines that `wrapper.go` calls
  (`net/url.Parse`, `net/textproto.CanonicalMIMEHeaderKey`, `http.Header`,
  `bytes.Buffer`, `io.ReadAll`), written after the Go 1.20 sources;
* `lambdaurl.*` : the four functions and the recorder type of `wrapper.go` itself.

Conventions.

* A Go `string` / `[]byte` is a list of bytes (`GoString`); nothing assumes valid UTF-8.
* A Go `map[string]V` is an association list with pairwise distinct keys.  The order of
  the list stands for the order in which one `range` loop happens to visit the entries
  (Go leaves it unspecified), so a statement over all lists covers every order.
  A nil map and an empty map are both `[]`.
* A Go `error` is an `Option`; `none` is `nil`.
* A run-time panic is the `Except.error` of the function that panics.
-/

set_option autoImplicit false

/-- One byte. -/
abbrev Byte := Fin 256

/-- The content of a Go `string` or `[]byte`. -/
abbrev GoString := List Byte

/-- The byte of an ASCII character. -/
abbrev ch (c : Char) : Byte := Fin.ofNat c.toNat

/-- The bytes of a string literal (its UTF-8 encoding, as in Go source text). -/
def gostr (s : String) : GoString :=
  (s.toList.flatMap String.utf8EncodeChar).map UInt8.val

deriving instance DecidableEq for Except

/-- A Go map from strings: entries with pairwise distinct keys. -/
abbrev GoMap (V : Type) := List (GoString × V)

namespace GoMap

variable {V : Type}

/-- The keys of the map, in entry order. -/
def keys (m : GoMap V) : List GoString := m.map Prod.fst

/-- The well-formedness of a map value: no key occurs twice. -/
def WF (m : GoMap V) : Prop := (keys m).Nodup

/-- The map index expression with comma-ok, `v, ok := m[k]`. -/
def lookup (k : GoString) : GoMap V → Option V
  | [] => none
  | (k', v) :: m => if k' = k then some v else lookup k m

/-- The assignment `m[k] = v`. -/
def assign (k : GoString) (v : V) : GoMap V → GoMap V
  | [] => [(k, v)]
  | (k', v') :: m => if k' = k then (k, v) :: m else (k', v') :: assign k v m

/-- The builtin `delete(m, k)`. -/
def delete (k : GoString) : GoMap V → GoMap V
  | [] => []
  | (k', v') :: m => if k' = k then m else (k', v') :: delete k m

end GoMap

namespace Go.strings

/-- Go `strings.HasPrefix`. -/
def HasPrefix (s pre : GoString) : Bool := pre.isPrefixOf s

/-- Go `strings.HasSuffix`. -/
def HasSuffix (s suf : GoString) : Bool := suf.isSuffixOf s

/-- Go `strings.IndexByte`: the first position of byte `c`, if any. -/
def IndexByte (c : Byte) : GoString → Option Nat
  | [] => none
  | b :: s => if b = c then some 0 else (IndexByte c s).map (· + 1)

/-- Go `strings.LastIndexByte`: the last position of byte `c`, if any. -/
def LastIndexByte (c : Byte) : GoString → Option Nat
  | [] => none
  | b :: s =>
    match LastIndexByte c s with
    | some i => some (i + 1)
    | none => if b = c then some 0 else none

/-- Go `strings.Index`: the first position at which `sep` occurs in `s`, if any. -/
def Index (sep : GoString) : GoString → Option Nat
  | [] => if sep = [] then some 0 else none
  | b :: s => if sep.isPrefixOf (b :: s) then some 0 else (Index sep s).map (· + 1)

/-- Go `strings.Contains` for a one-byte separator. -/
def ContainsByte (s : GoString) (c : Byte) : Bool := (IndexByte c s).isSome

/-- Go `strings.Count` for a one-byte separator. -/
def CountByte (s : GoString) (c : Byte) : Nat := s.count c

/-- Go `strings.Cut` for a one-byte separator: `(before, after, found)`. -/
def Cut (s : GoString) (sep : Byte) : GoString × GoString × Bool :=
  match IndexByte sep s with
  | some i => (s.take i, s.drop (i + 1), true)
  | none => (s, [], false)

/-- Go `strings.ToLower` on the ASCII range (the only use is on a URL scheme, which
`getScheme` restricts to ASCII letters, digits, `+`, `-` and `.`). -/
def ToLower (s : GoString) : GoString :=
  s.map fun c => if ch 'A' ≤ c ∧ c ≤ ch 'Z' then c + 32 else c

end Go.strings

namespace Go.url

open Go.strings

/-- The `error` values that `net/url` produces while parsing. -/
inductive ParseErr where
  /-- `net/url: invalid control character in URL` -/
  | invalidControlCharacter
  /-- `empty url` -/
  | emptyURL
  /-- `missing protocol scheme` -/
  | missingProtocolScheme
  /-- `invalid URI for request` -/
  | invalidURIForRequest
  /-- `first path segment in URL cannot contain colon` -/
  | firstPathSegmentColon
  /-- `EscapeError(s)`: invalid URL escape `s` -/
  | EscapeError (s : GoString)
  /-- `InvalidHostError(s)`: invalid character `s` in host name -/
  | InvalidHostError (s : GoString)
  /-- `missing ']' in host` -/
  | missingBracket
  /-- `invalid port %q after host` -/
  | invalidPort (colonPort : GoString)
  /-- `net/url: invalid userinfo` -/
  | invalidUserinfo
  deriving DecidableEq, Repr

/-- Go `url.Error`: the operation, the URL text and the cause. -/
structure Error where
  Op : GoString
  URL : GoString
  Err : ParseErr
  deriving DecidableEq, Repr

/-- Go `url.Userinfo`. -/
structure Userinfo where
  username : GoString
  password : GoString
  passwordSet : Bool
  deriving DecidableEq, Repr

/-- Go `url.URL`. -/
structure URL where
  Scheme : GoString := []
  Opaque : GoString := []
  User : Option Userinfo := none
  Host : GoString := []
  Path : GoString := []
  RawPath : GoString := []
  OmitHost : Bool := false
  ForceQuery : Bool := false
  RawQuery : GoString := []
  Fragment : GoString := []
  RawFragment : GoString := []
  deriving DecidableEq, Repr

/-- The `encoding` modes of `net/url`. -/
inductive encoding where
  | encodePath
  | encodePathSegment
  | encodeHost
  | encodeZone
  | encodeUserPassword
  | encodeQueryComponent
  | encodeFragment
  deriving DecidableEq, Repr

open encoding

/-- Go `ishex`. -/
def ishex (c : Byte) : Bool :=
  (ch '0' ≤ c && c ≤ ch '9') || (ch 'a' ≤ c && c ≤ ch 'f') || (ch 'A' ≤ c && c ≤ ch 'F')

/-- Go `unhex`. -/
def unhex (c : Byte) : Byte :=
  if ch '0' ≤ c ∧ c ≤ ch '9' then c - ch '0'
  else if ch 'a' ≤ c ∧ c ≤ ch 'f' then c - ch 'a' + 10
  else if ch 'A' ≤ c ∧ c ≤ ch 'F' then c - ch 'A' + 10
  else 0

/-- The byte written for the escape `%ab`: `unhex(a)<<4 | unhex(b)`. -/
def unhex2 (a b : Byte) : Byte := (unhex a <<< (4 : Byte)) ||| unhex b

/-- Go `shouldEscape`: whether byte `c` must be escaped in the given part of a URL. -/
def shouldEscape (c : Byte) (mode : encoding) : Bool :=
  if (ch 'a' ≤ c ∧ c ≤ ch 'z') ∨ (ch 'A' ≤ c ∧ c ≤ ch 'Z') ∨ (ch '0' ≤ c ∧ c ≤ ch '9') then
    false
  else if (mode = encodeHost ∨ mode = encodeZone) ∧
      c ∈ [ch '!', ch '$', ch '&', 39, ch '(', ch ')', ch '*', ch '+', ch ',', ch ';',
           ch '=', ch ':', ch '[', ch ']', ch '<', ch '>', 34] then
    false
  else if c ∈ [ch '-', ch '_', ch '.', ch '~'] then
    false
  else if c ∈ [ch '$', ch '&', ch '+', ch ',', ch '/', ch ':', ch ';', ch '=', ch '?',
      ch '@'] then
    match mode with
    | encodePath => c = ch '?'
    | encodePathSegment => c = ch '/' || c = ch ';' || c = ch ',' || c = ch '?'
    | encodeUserPassword => c = ch '@' || c = ch '/' || c = ch '?' || c = ch ':'
    | encodeQueryComponent => true
    | encodeFragment => false
    | encodeHost => true
    | encodeZone => true
  else if mode = encodeFragment ∧ c ∈ [ch '!', ch '(', ch ')', ch '*'] then
    false
  else
    true

/-- The first pass of Go `unescape`: count the escapes and check that they are
well-formed.  Returns `(n, hasPlus)`. -/
def unescapeCheck (mode : encoding) : GoString → Nat → Bool → Except ParseErr (Nat × Bool)
  | [], n, hasPlus => .ok (n, hasPlus)
  | c :: rest, n, hasPlus =>
    if c = ch '%' then
      match rest with
      | a :: b :: rest' =>
        if !ishex a || !ishex b then
          .error (.EscapeError ((c :: rest).take 3))
        else if mode = encodeHost ∧ unhex a < 8 ∧ [c, a, b] ≠ [ch '%', ch '2', ch '5'] then
          .error (.EscapeError [c, a, b])
        else if mode = encodeZone ∧ [c, a, b] ≠ [ch '%', ch '2', ch '5'] ∧
            unhex2 a b ≠ ch ' ' ∧ shouldEscape (unhex2 a b) encodeHost then
          .error (.EscapeError [c, a, b])
        else
          unescapeCheck mode rest' (n + 1) hasPlus
      | _ => .error (.EscapeError ((c :: rest).take 3))
    else if c = ch '+' then
      unescapeCheck mode rest n (decide (mode = encodeQueryComponent))
    else if (mode = encodeHost ∨ mode = encodeZone) ∧ c < 0x80 ∧ shouldEscape c encodeHost then
      .error (.InvalidHostError [c])
    else
      unescapeCheck mode rest n hasPlus

/-- The second pass of Go `unescape`: decode `%XX` (and `+` in a query component).
It runs only on text the first pass accepted, where every `%` has two bytes after it. -/
def unescapeBuild (mode : encoding) : GoString → GoString
  | [] => []
  | c :: rest =>
    if c = ch '%' then
      match rest with
      | a :: b :: rest' => unhex2 a b :: unescapeBuild mode rest'
      | _ => []
    else if c = ch '+' then
      (if mode = encodeQueryComponent then ch ' ' else ch '+') :: unescapeBuild mode rest
    else
      c :: unescapeBuild mode rest

/-- Go `unescape`. -/
def unescape (s : GoString) (mode : encoding) : Except ParseErr GoString :=
  match unescapeCheck mode s 0 false with
  | .error e => .error e
  | .ok (n, hasPlus) =>
    if n = 0 ∧ hasPlus = false then .ok s else .ok (unescapeBuild mode s)

/-- The digit `upperhex[i]` of `"0123456789ABCDEF"`. -/
def upperhex (i : Byte) : Byte :=
  if i < 10 then ch '0' + i else ch 'A' + (i - 10)

/-- The rewriting loop of Go `escape`. -/
def escapeBuild (mode : encoding) : GoString → GoString
  | [] => []
  | c :: rest =>
    if c = ch ' ' ∧ mode = encodeQueryComponent then
      ch '+' :: escapeBuild mode rest
    else if shouldEscape c mode then
      ch '%' :: upperhex (c >>> (4 : Byte)) :: upperhex (c &&& 15) :: escapeBuild mode rest
    else
      c :: escapeBuild mode rest

/-- Go `escape`. -/
def escape (s : GoString) (mode : encoding) : GoString :=
  if s.any (fun c => shouldEscape c mode) then escapeBuild mode s else s

/-- Go `stringContainsCTLByte`. -/
def stringContainsCTLByte (s : GoString) : Bool :=
  s.any fun b => b < ch ' ' || b = 0x7f

/-- The loop of Go `getScheme`, at index `i` with `s = rawURL[i:]`. -/
def getSchemeFrom (rawURL : GoString) : Nat → GoString → Except ParseErr (GoString × GoString)
  | _, [] => .ok ([], rawURL)
  | i, c :: s =>
    if (ch 'a' ≤ c ∧ c ≤ ch 'z') ∨ (ch 'A' ≤ c ∧ c ≤ ch 'Z') then
      getSchemeFrom rawURL (i + 1) s
    else if (ch '0' ≤ c ∧ c ≤ ch '9') ∨ c = ch '+' ∨ c = ch '-' ∨ c = ch '.' then
      if i = 0 then .ok ([], rawURL) else getSchemeFrom rawURL (i + 1) s
    else if c = ch ':' then
      if i = 0 then .error .missingProtocolScheme
      else .ok (rawURL.take i, rawURL.drop (i + 1))
    else
      .ok ([], rawURL)

/-- Go `getScheme`: `(scheme, path)`. -/
def getScheme (rawURL : GoString) : Except ParseErr (GoString × GoString) :=
  getSchemeFrom rawURL 0 rawURL

/-- Go `validOptionalPort`. -/
def validOptionalPort (port : GoString) : Bool :=
  match port with
  | [] => true
  | c :: digits => c = ch ':' && digits.all fun b => ch '0' ≤ b && b ≤ ch '9'

/-- Go `validUserinfo`.  The Go loop ranges over runes; a rune outside ASCII is
never in the accepted set, so the test is the same byte by byte. -/
def validUserinfo (s : GoString) : Bool :=
  s.all fun r =>
    (ch 'A' ≤ r && r ≤ ch 'Z') || (ch 'a' ≤ r && r ≤ ch 'z') || (ch '0' ≤ r && r ≤ ch '9') ||
    decide (r ∈ [ch '-', ch '.', ch '_', ch ':', ch '~', ch '!', ch '$', ch '&', 39, ch '(',
      ch ')', ch '*', ch '+', ch ',', ch ';', ch '=', ch '%', ch '@'])

/-- Go `parseHost`. -/
def parseHost (host : GoString) : Except ParseErr GoString :=
  if HasPrefix host [ch '['] then
    match LastIndexByte (ch ']') host with
    | none => .error .missingBracket
    | some i =>
      let colonPort := host.drop (i + 1)
      if !validOptionalPort colonPort then .error (.invalidPort colonPort)
      else
        match Index [ch '%', ch '2', ch '5'] (host.take i) with
        | some zone =>
          match unescape (host.take zone) encodeHost with
          | .error e => .error e
          | .ok host1 =>
            match unescape ((host.take i).drop zone) encodeZone with
            | .error e => .error e
            | .ok host2 =>
              match unescape (host.drop i) encodeHost with
              | .error e => .error e
              | .ok host3 => .ok (host1 ++ host2 ++ host3)
        | none => unescape host encodeHost
  else
    match LastIndexByte (ch ':') host with
    | some i =>
      let colonPort := host.drop i
      if !validOptionalPort colonPort then .error (.invalidPort colonPort)
      else unescape host encodeHost
    | none => unescape host encodeHost

/-- Go `parseAuthority`: `(user, host)`. -/
def parseAuthority (authority : GoString) : Except ParseErr (Option Userinfo × GoString) :=
  match LastIndexByte (ch '@') authority with
  | none =>
    match parseHost authority with
    | .error e => .error e
    | .ok host => .ok (none, host)
  | some i =>
    match parseHost (authority.drop (i + 1)) with
    | .error e => .error e
    | .ok host =>
      let userinfo := authority.take i
      if !validUserinfo userinfo then .error .invalidUserinfo
      else if !ContainsByte userinfo (ch ':') then
        match unescape userinfo encodeUserPassword with
        | .error e => .error e
        | .ok username => .ok (some ⟨username, [], false⟩, host)
      else
        match unescape (Cut userinfo (ch ':')).1 encodeUserPassword with
        | .error e => .error e
        | .ok username =>
          match unescape (Cut userinfo (ch ':')).2.1 encodeUserPassword with
          | .error e => .error e
          | .ok password => .ok (some ⟨username, password, true⟩, host)

/-- Go `(*URL).setPath`: sets `Path` and, when the default encoding of `Path` differs
from the text given, `RawPath`. -/
def setPath (u : URL) (p : GoString) : Except ParseErr URL :=
  match unescape p encodePath with
  | .error e => .error e
  | .ok path =>
    .ok { u with Path := path, RawPath := if p = escape path encodePath then [] else p }

/-- Go `(*URL).setFragment`. -/
def setFragment (u : URL) (f : GoString) : Except ParseErr URL :=
  match unescape f encodeFragment with
  | .error e => .error e
  | .ok frag =>
    .ok { u with Fragment := frag,
                 RawFragment := if f = escape frag encodeFragment then [] else f }

/-- The tail of Go `parse`: the authority, if the text begins with `//`, then the path. -/
def parseAuthorityPath (url : URL) (rest : GoString) (viaRequest : Bool) :
    Except ParseErr URL :=
  if (url.Scheme ≠ [] ∨ (viaRequest = false ∧ HasPrefix rest (gostr "///") = false)) ∧
      HasPrefix rest (gostr "//") = true then
    let authority := rest.drop 2
    let split : GoString × GoString :=
      match IndexByte (ch '/') authority with
      | some i => (authority.take i, authority.drop i)
      | none => (authority, [])
    match parseAuthority split.1 with
    | .error e => .error e
    | .ok (user, host) => setPath { url with User := user, Host := host } split.2
  else if url.Scheme ≠ [] ∧ HasPrefix rest [ch '/'] = true then
    setPath { url with OmitHost := true } rest
  else
    setPath url rest

/-- The middle of Go `parse`: what follows the split of scheme and query. -/
def parseRest (url : URL) (rest : GoString) (viaRequest : Bool) : Except ParseErr URL :=
  if HasPrefix rest [ch '/'] = false then
    if url.Scheme ≠ [] then .ok { url with Opaque := rest }
    else if viaRequest then .error .invalidURIForRequest
    else if ContainsByte (Cut rest (ch '/')).1 (ch ':') then .error .firstPathSegmentColon
    else parseAuthorityPath url rest viaRequest
  else parseAuthorityPath url rest viaRequest

/-- Go `parse`: a URL without its fragment. -/
def parse (rawURL : GoString) (viaRequest : Bool) : Except ParseErr URL :=
  if stringContainsCTLByte rawURL then .error .invalidControlCharacter
  else if rawURL = [] ∧ viaRequest = true then .error .emptyURL
  else if rawURL = [ch '*'] then .ok { Path := [ch '*'] }
  else
    match getScheme rawURL with
    | .error e => .error e
    | .ok (scheme, rest) =>
      let url : URL := { Scheme := ToLower scheme }
      if HasSuffix rest [ch '?'] = true ∧ CountByte rest (ch '?') = 1 then
        parseRest { url with ForceQuery := true } rest.dropLast viaRequest
      else
        parseRest { url with RawQuery := (Cut rest (ch '?')).2.1 } (Cut rest (ch '?')).1
          viaRequest

/-- Go `url.Parse`. -/
def Parse (rawURL : GoString) : Except Error URL :=
  let u := (Cut rawURL (ch '#')).1
  let frag := (Cut rawURL (ch '#')).2.1
  match parse u false with
  | .error err => .error ⟨gostr "parse", u, err⟩
  | .ok url =>
    if frag = [] then .ok url
    else
      match setFragment url frag with
      | .error err => .error ⟨gostr "parse", rawURL, err⟩
      | .ok url => .ok url

end Go.url

namespace Go.textproto

/-- Go `validHeaderFieldByte`: the token bytes of RFC 7230 (`isTokenTable`). -/
def validHeaderFieldByte (c : Byte) : Bool :=
  (ch 'a' ≤ c && c ≤ ch 'z') || (ch 'A' ≤ c && c ≤ ch 'Z') || (ch '0' ≤ c && c ≤ ch '9') ||
  decide (c ∈ [ch '!', ch '#', ch '$', ch '%', ch '&', 39, ch '*', ch '+', ch '-', ch '.',
    ch '^', ch '_', 96, ch '|', ch '~'])

/-- The constant `toLower = 'a' - 'A'`. -/
def toLower : Byte := ch 'a' - ch 'A'

/-- The first loop of Go `canonicalMIMEHeaderKey`: `none` when a byte is neither a token
byte nor a space, otherwise `some noCanon`. -/
def looksLikeKey : GoString → Bool → Option Bool
  | [], noCanon => some noCanon
  | c :: a, noCanon =>
    if validHeaderFieldByte c then looksLikeKey a noCanon
    else if c = ch ' ' then looksLikeKey a true
    else none

/-- The second loop of Go `canonicalMIMEHeaderKey`: upper case for the first letter and
for a letter after a dash, lower case elsewhere. -/
def canonicalize : GoString → Bool → GoString
  | [], _ => []
  | c :: a, upper =>
    let c' : Byte :=
      if upper = true ∧ ch 'a' ≤ c ∧ c ≤ ch 'z' then c - toLower
      else if upper = false ∧ ch 'A' ≤ c ∧ c ≤ ch 'Z' then c + toLower
      else c
    c' :: canonicalize a (decide (c' = ch '-'))

/-- Go `canonicalMIMEHeaderKey`.  (The final look-up in `commonHeader` returns a string
with the same bytes.) -/
def canonicalMIMEHeaderKey (a : GoString) : GoString × Bool :=
  match looksLikeKey a false with
  | none => (a, false)
  | some true => (a, true)
  | some false => (canonicalize a true, true)

/-- The loop of Go `CanonicalMIMEHeaderKey` over `rest`, a suffix of `s`. -/
def quickCheck (s : GoString) : GoString → Bool → GoString
  | [], _ => s
  | c :: rest, upper =>
    if !validHeaderFieldByte c then s
    else if upper = true ∧ ch 'a' ≤ c ∧ c ≤ ch 'z' then (canonicalMIMEHeaderKey s).1
    else if upper = false ∧ ch 'A' ≤ c ∧ c ≤ ch 'Z' then (canonicalMIMEHeaderKey s).1
    else quickCheck s rest (decide (c = ch '-'))

/-- Go `textproto.CanonicalMIMEHeaderKey`. -/
def CanonicalMIMEHeaderKey (s : GoString) : GoString := quickCheck s s true

end Go.textproto

namespace Go.http

open Go.textproto

/-- Go `http.Header`, a `map[string][]string`. -/
abbrev Header := GoMap (List GoString)

/-- Go `Header.Set`: `h[CanonicalMIMEHeaderKey(key)] = []string{value}`. -/
def Header.Set (h : Header) (key value : GoString) : Header :=
  GoMap.assign (CanonicalMIMEHeaderKey key) [value] h

/-- Go `Header.Add`: `h[key] = append(h[key], value)` at the canonical key. -/
def Header.Add (h : Header) (key value : GoString) : Header :=
  GoMap.assign (CanonicalMIMEHeaderKey key)
    (((GoMap.lookup (CanonicalMIMEHeaderKey key) h).getD []) ++ [value]) h

/-- Go `Header.Del`: `delete(h, CanonicalMIMEHeaderKey(key))`. -/
def Header.Del (h : Header) (key : GoString) : Header :=
  GoMap.delete (CanonicalMIMEHeaderKey key) h

end Go.http

namespace Go.io

/-- The `error` values of a reader; `EOF` is `io.EOF`. -/
inductive Err where
  | EOF
  | other (msg : GoString)
  deriving DecidableEq, Repr

end Go.io

namespace Go.bytes

/-- Go `bytes.Buffer`, by its unread content `buf[off:]`. -/
structure Buffer where
  unread : GoString
  deriving DecidableEq, Repr

/-- Go `new(bytes.Buffer)`. -/
def Buffer.new : Buffer := ⟨[]⟩

/-- Go `bytes.NewBufferString`. -/
def NewBufferString (s : GoString) : Buffer := ⟨s⟩

/-- Go `(*Buffer).Write`: appends `p`; returns the buffer, `len(p)` and a nil error. -/
def Buffer.Write (b : Buffer) (p : GoString) : Buffer × Nat × Option Go.io.Err :=
  (⟨b.unread ++ p⟩, p.length, none)

/-- Go `(*Buffer).Read` into a slice of length `n`: the buffer afterwards, the bytes
copied, and the error (`io.EOF` on an empty buffer unless `n = 0`). -/
def Buffer.Read (b : Buffer) (n : Nat) : Buffer × GoString × Option Go.io.Err :=
  if b.unread = [] then (⟨[]⟩, [], if n = 0 then none else some .EOF)
  else (⟨b.unread.drop n⟩, b.unread.take n, none)

end Go.bytes

namespace Go.io

open Go.bytes

/-- The capacity that `append(b, 0)` gives a full slice of capacity `cap` (`growslice`
of Go 1.20, before the rounding up to an allocation size class; the bytes that
`ReadAll` returns do not depend on the value, only on its being larger than `cap`). -/
def growCap (cap : Nat) : Nat :=
  if cap = 0 then 1 else if cap < 256 then cap + cap else cap + (cap + 768) / 4

/-- The loop of Go `io.ReadAll` on a `bytes.Buffer`: `b` is the slice read so far and
`free` is `cap(b) - len(b)`. -/
def readAllLoop (r : Buffer) (b : GoString) (free : Nat) : GoString × Option Err × Buffer :=
  match h : r.Read free with
  | (r', chunk, some err) => (b ++ chunk, if err = .EOF then none else some err, r')
  | (r', chunk, none) =>
    if free - chunk.length = 0 then
      readAllLoop r' (b ++ chunk) (growCap (b ++ chunk).length - (b ++ chunk).length)
    else
      readAllLoop r' (b ++ chunk) (free - chunk.length)
termination_by 2 * r.unread.length + (if free = 0 then 1 else 0)
decreasing_by
  all_goals simp_wf
  all_goals
    have hg : 0 < growCap (b ++ chunk).length - (b ++ chunk).length := by
      unfold growCap
      split_ifs <;> omega
    unfold Buffer.Read at h
    by_cases hu : r.unread = []
    · rw [if_pos hu] at h
      simp only [Prod.mk.injEq] at h
      obtain ⟨rfl, rfl, h3⟩ := h
      have hf : free = 0 := by
        by_contra hf
        simp [hf] at h3
      subst hf
      have hg' : ¬ (growCap (b.length + 0) - (b.length + 0) = 0) := by
        simp only [List.append_nil, Nat.add_zero] at hg ⊢
        omega
      simp_all
    · rw [if_neg hu] at h
      simp only [Prod.mk.injEq] at h
      obtain ⟨rfl, rfl, -⟩ := h
      have hpos : 0 < r.unread.length := List.length_pos.mpr hu
      simp only [List.length_drop, List.length_take, List.length_append] at *
      split_ifs <;> omega

/-- Go `io.ReadAll` on a `bytes.Buffer`: the data read, the error, and the buffer
afterwards. -/
def ReadAll (r : Buffer) : GoString × Option Err × Buffer := readAllLoop r [] 512

end Go.io

namespace lambdaurl

open Go.http Go.bytes Go.io

/-- Go `events.LambdaFunctionURLRequestContextHTTPDescription`. -/
structure LambdaFunctionURLRequestContextHTTPDescription where
  Method : GoString := []
  Path : GoString := []
  Protocol : GoString := []
  SourceIP : GoString := []
  UserAgent : GoString := []
  deriving DecidableEq, Repr

/-- Go `events.LambdaFunctionURLRequestContext` (the fields next to `HTTP` are strings
and numbers that `wrapper.go` never reads; two of them are kept). -/
structure LambdaFunctionURLRequestContext where
  DomainName : GoString := []
  RequestID : GoString := []
  HTTP : LambdaFunctionURLRequestContextHTTPDescription := {}
  deriving DecidableEq, Repr

/-- Go `events.LambdaFunctionURLRequest`, the Inbound Event. -/
structure LambdaFunctionURLRequest where
  Version : GoString := []
  RawPath : GoString := []
  RawQueryString : GoString := []
  Cookies : List GoString := []
  Headers : GoMap GoString := []
  QueryStringParameters : GoMap GoString := []
  RequestContext : LambdaFunctionURLRequestContext := {}
  Body : GoString := []
  IsBase64Encoded : Bool := false
  deriving DecidableEq, Repr

/-- Go `events.LambdaFunctionURLResponse`, the Outbound Event.  The default value of
each field is its Go zero value, so `{}` is `events.LambdaFunctionURLResponse{}`. -/
structure LambdaFunctionURLResponse where
  StatusCode : Int := 0
  Headers : GoMap GoString := []
  Body : GoString := []
  IsBase64Encoded : Bool := false
  Cookies : List GoString := []
  deriving DecidableEq, Repr

/-- Go `http.Request`, the Generic Request, by the four fields the literal at
`wrapper.go:44` sets (all others keep their zero value).  `Body` is the buffer behind
`io.NopCloser`. -/
structure Request where
  Method : GoString
  URL : Go.url.URL
  Header : Header
  Body : Buffer
  deriving DecidableEq, Repr

/-- The type `ResponseRecorder` of `wrapper.go`. -/
structure ResponseRecorder where
  StatusCode : Int
  HeaderMap : Header
  Body : Buffer
  deriving DecidableEq, Repr

/-- A run-time panic of the Go program. -/
inductive Panic where
  /-- `index out of range [index] with length length` -/
  | indexOutOfRange (index length : Nat)
  deriving DecidableEq, Repr

/-- `NewResponseRecorder` of `wrapper.go`. -/
def NewResponseRecorder : ResponseRecorder :=
  { StatusCode := 0, HeaderMap := [], Body := Buffer.new }

/-- `(*ResponseRecorder).Header` of `wrapper.go`: the recorder's own header map. -/
def ResponseRecorder.Header (r : ResponseRecorder) : Header := r.HeaderMap

/-- `(*ResponseRecorder).Write` of `wrapper.go`: the recorder afterwards and the two
results of `r.Body.Write(data)`. -/
def ResponseRecorder.Write (r : ResponseRecorder) (data : GoString) :
    ResponseRecorder × Nat × Option Go.io.Err :=
  ({ r with Body := (r.Body.Write data).1 }, (r.Body.Write data).2)

/-- `(*ResponseRecorder).WriteHeader` of `wrapper.go`. -/
def ResponseRecorder.WriteHeader (r : ResponseRecorder) (statusCode : Int) :
    ResponseRecorder :=
  { r with StatusCode := statusCode }

/-- The loop `for key, value := range lambdaRequest.Headers` of
`convertLambdaRequestToHTTPRequest`, over the entries in the order visited. -/
def setRequestHeaders : GoMap GoString → Header → Header
  | [], h => h
  | (key, value) :: rest, h => setRequestHeaders rest (Header.Set h key value)

/-- `convertLambdaRequestToHTTPRequest` of `wrapper.go`. -/
def convertLambdaRequestToHTTPRequest (lambdaRequest : LambdaFunctionURLRequest) :
    Except Go.url.Error Request :=
  match Go.url.Parse lambdaRequest.RequestContext.HTTP.Path with
  | .error err => .error err
  | .ok requestURL =>
    .ok { Method := lambdaRequest.RequestContext.HTTP.Method
          URL := requestURL
          Header := setRequestHeaders lambdaRequest.Headers []
          Body := NewBufferString lambdaRequest.Body }

/-- The loop `for key, values := range responseRecorder.Header()` of
`convertHTTPResponseToLambdaResponse`, over the entries in the order visited:
`values[0]` panics on an empty slice. -/
def setResponseHeaders : Header → GoMap GoString → Except Panic (GoMap GoString)
  | [], headers => .ok headers
  | (key, values) :: rest, headers =>
    match values with
    | [] => .error (.indexOutOfRange 0 0)
    | v :: _ => setResponseHeaders rest (GoMap.assign key v headers)

/-- `convertHTTPResponseToLambdaResponse` of `wrapper.go`.  (The call drains the
recorder's buffer; the recorder is not used again.) -/
def convertHTTPResponseToLambdaResponse (responseRecorder : ResponseRecorder) :
    Except Panic LambdaFunctionURLResponse :=
  let bodyBytes := (ReadAll responseRecorder.Body).1
  match setResponseHeaders responseRecorder.Header [] with
  | .error p => .error p
  | .ok headers =>
    .ok { StatusCode := responseRecorder.StatusCode, Headers := headers, Body := bodyBytes }

/-- Go `http.HandlerFunc`, for a handler that returns: from the recorder it is given
and the request to the recorder as the handler leaves it.  (The recorder is the only
response sink there is, and every change a handler makes to it is a change of this
state.) -/
abbrev HandlerFunc := ResponseRecorder → Request → ResponseRecorder

/-- One run of the function that `WrapHandler` returns: the calls made to the handler,
each with its two arguments, and what the function returns (or the panic that ends
it). -/
structure Invocation where
  calls : List (ResponseRecorder × Request)
  result : Except Panic (LambdaFunctionURLResponse × Option Go.url.Error)
  deriving DecidableEq

/-- `WrapHandler` of `wrapper.go`: the returned function, applied to `request` (the
`context.Context` argument is not used by the body). -/
def WrapHandler (handler : HandlerFunc) (request : LambdaFunctionURLRequest) : Invocation :=
  match convertLambdaRequestToHTTPRequest request with
  | .error err => { calls := [], result := .ok ({}, some err) }
  | .ok httpRequest =>
    let responseRecorder := NewResponseRecorder
    let recorded := handler responseRecorder httpRequest
    match convertHTTPResponseToLambdaResponse recorded with
    | .error p => { calls := [(responseRecorder, httpRequest)], result := .error p }
    | .ok lambdaResponse =>
      { calls := [(responseRecorder, httpRequest)], result := .ok (lambdaResponse, none) }

/-- What a handler can do with the response sink it is given. -/
inductive SinkOp where
  /-- `w.WriteHeader(statusCode)` -/
  | WriteHeader (statusCode : Int)
  /-- `w.Write(data)` -/
  | Write (data : GoString)
  /-- `w.Header().Set(key, value)` -/
  | HeaderSet (key value : GoString)
  /-- `w.Header().Add(key, value)` -/
  | HeaderAdd (key value : GoString)
  /-- `w.Header().Del(key)` -/
  | HeaderDel (key : GoString)
  /-- `w.Header()[key] = values`, the assignment on the map itself -/
  | HeaderAssign (key : GoString) (values : List GoString)
  /-- `delete(w.Header(), key)`, the deletion on the map itself -/
  | HeaderDelete (key : GoString)
  deriving DecidableEq, Repr

/-- One sink operation on the recorder. -/
def SinkOp.apply (r : ResponseRecorder) : SinkOp → ResponseRecorder
  | .WriteHeader statusCode => r.WriteHeader statusCode
  | .Write data => (r.Write data).1
  | .HeaderSet key value => { r with HeaderMap := Header.Set r.Header key value }
  | .HeaderAdd key value => { r with HeaderMap := Header.Add r.Header key value }
  | .HeaderDel key => { r with HeaderMap := Header.Del r.Header key }
  | .HeaderAssign key values => { r with HeaderMap := GoMap.assign key values r.Header }
  | .HeaderDelete key => { r with HeaderMap := GoMap.delete key r.Header }

/-- A handler that performs the given sink operations in order. -/
def runOps (ops : List SinkOp) (r : ResponseRecorder) : ResponseRecorder :=
  ops.foldl SinkOp.apply r

/-- The arguments of the `Write` calls among the operations, in order. -/
def writesOf : List SinkOp → List GoString
  | [] => []
  | .Write data :: ops => data :: writesOf ops
  | _ :: ops => writesOf ops

/-- The arguments of the `WriteHeader` calls among the operations, in order. -/
def statusArgs : List SinkOp → List Int
  | [] => []
  | .WriteHeader statusCode :: ops => statusCode :: statusArgs ops
  | _ :: ops => statusArgs ops

/-- The argument of the last `WriteHeader` among the operations, `0` if there is none. -/
def lastStatus (ops : List SinkOp) : Int := (statusArgs ops).getLast?.getD 0

/-- The value of the last entry of an inbound header map, in the order visited, whose
key has the canonical form `K`. -/
def lastWithCanonicalKey (K : GoString) : GoMap GoString → Option GoString
  | [] => none
  | (k, v) :: rest =>
    match lastWithCanonicalKey K rest with
    | some v' => some v'
    | none => if Go.textproto.CanonicalMIMEHeaderKey k = K then some v else none

/-- A header map in which no key holds an empty sequence of values. -/
def NoEmptyValues (h : Header) : Prop := ∀ kv ∈ h, kv.2 ≠ []

end lambdaurl

/-! ## Go maps -/

namespace GoMap

variable {V : Type}

theorem lookup_assign_self (k : GoString) (v : V) (m : GoMap V) :
    lookup k (assign k v m) = some v := by
  induction m with
  | nil => simp [assign, lookup]
  | cons e m ih =>
    obtain ⟨k', v'⟩ := e
    by_cases h : k' = k
    · simp [assign, lookup, h]
    · simp [assign, lookup, h, ih]

theorem lookup_assign_ne {k k' : GoString} (v : V) (m : GoMap V) (hne : k ≠ k') :
    lookup k' (assign k v m) = lookup k' m := by
  induction m with
  | nil => simp [assign, lookup, hne]
  | cons e m ih =>
    obtain ⟨k₀, v₀⟩ := e
    by_cases h : k₀ = k
    · subst h
      simp [assign, lookup, hne]
    · by_cases h' : k₀ = k'
      · subst h'
        simp [assign, lookup, h]
      · simp [assign, lookup, h, h', ih]

theorem lookup_assign (k k' : GoString) (v : V) (m : GoMap V) :
    lookup k' (assign k v m) = if k = k' then some v else lookup k' m := by
  by_cases h : k = k'
  · subst h
    simp [lookup_assign_self]
  · simp [h, lookup_assign_ne v m h]

theorem lookup_eq_none_iff (k : GoString) (m : GoMap V) :
    lookup k m = none ↔ k ∉ keys m := by
  induction m with
  | nil => simp [lookup, keys]
  | cons e m ih =>
    obtain ⟨k', v'⟩ := e
    by_cases h : k' = k
    · simp [lookup, keys, h]
    · have h' : ¬ k = k' := fun e => h e.symm
      simp only [keys] at ih
      simp [lookup, keys, h, h', ih]

theorem mem_keys_iff_lookup (k : GoString) (m : GoMap V) :
    k ∈ keys m ↔ ∃ v, lookup k m = some v := by
  rw [← Option.isSome_iff_exists, ← Option.ne_none_iff_isSome, Ne, lookup_eq_none_iff]
  simp

theorem lookup_of_mem {k : GoString} {v : V} {m : GoMap V} (hwf : WF m) (h : (k, v) ∈ m) :
    lookup k m = some v := by
  induction m with
  | nil => simp at h
  | cons e m ih =>
    obtain ⟨k', v'⟩ := e
    simp only [WF, keys, List.map_cons, List.nodup_cons] at hwf
    rcases List.mem_cons.mp h with heq | hmem
    · cases heq
      simp [lookup]
    · have hk : k ∈ keys m := List.mem_map.mpr ⟨(k, v), hmem, rfl⟩
      have hne : ¬ k' = k := by
        rintro rfl
        exact hwf.1 hk
      simp only [lookup, hne, if_false]
      exact ih hwf.2 hmem

theorem mem_of_lookup {k : GoString} {v : V} {m : GoMap V} (h : lookup k m = some v) :
    (k, v) ∈ m := by
  induction m with
  | nil => simp [lookup] at h
  | cons e m ih =>
    obtain ⟨k', v'⟩ := e
    by_cases hk : k' = k
    · simp only [lookup, hk, if_true, Option.some.injEq] at h
      simp [hk, h]
    · simp only [lookup, hk, if_false] at h
      exact List.mem_cons_of_mem _ (ih h)

theorem mem_assign {k : GoString} {v : V} {m : GoMap V} {e : GoString × V}
    (h : e ∈ assign k v m) : e = (k, v) ∨ e ∈ m := by
  induction m with
  | nil => simpa [assign] using h
  | cons e' m ih =>
    obtain ⟨k', v'⟩ := e'
    by_cases hk : k' = k
    · simp only [assign, hk, if_true, List.mem_cons] at h
      rcases h with h | h
      · exact Or.inl h
      · exact Or.inr (List.mem_cons_of_mem _ h)
    · simp only [assign, hk, if_false, List.mem_cons] at h
      rcases h with h | h
      · exact Or.inr (h ▸ List.mem_cons_self _ _)
      · rcases ih h with h | h
        · exact Or.inl h
        · exact Or.inr (List.mem_cons_of_mem _ h)

theorem mem_delete {k : GoString} {m : GoMap V} {e : GoString × V}
    (h : e ∈ delete k m) : e ∈ m := by
  induction m with
  | nil => simp [delete] at h
  | cons e' m ih =>
    obtain ⟨k', v'⟩ := e'
    by_cases hk : k' = k
    · simp only [delete, hk, if_true] at h
      exact List.mem_cons_of_mem _ h
    · simp only [delete, hk, if_false, List.mem_cons] at h
      rcases h with h | h
      · exact h ▸ List.mem_cons_self _ _
      · exact List.mem_cons_of_mem _ (ih h)

theorem mem_keys_assign (k k' : GoString) (v : V) (m : GoMap V) :
    k' ∈ keys (assign k v m) ↔ k' = k ∨ k' ∈ keys m := by
  rw [mem_keys_iff_lookup, mem_keys_iff_lookup, lookup_assign]
  by_cases h : k = k'
  · simp [h]
  · have h' : ¬ k' = k := fun e => h e.symm
    simp [h, h']

theorem WF_assign (k : GoString) (v : V) {m : GoMap V} (hwf : WF m) : WF (assign k v m) := by
  induction m with
  | nil => simp [assign, WF, keys]
  | cons e m ih =>
    obtain ⟨k', v'⟩ := e
    simp only [WF, keys, List.map_cons, List.nodup_cons] at hwf
    by_cases hk : k' = k
    · subst hk
      simpa [assign, WF, keys] using hwf
    · have hnot : k' ∉ keys (assign k v m) := by
        rw [mem_keys_assign]
        rintro (h | h)
        · exact hk h
        · exact hwf.1 h
      have := ih hwf.2
      simp only [assign, hk, if_false, WF, keys, List.map_cons, List.nodup_cons]
      exact ⟨hnot, this⟩

end GoMap

/-! ## `io.ReadAll` on a buffer -/

namespace Go.io

open Go.bytes

theorem readAllLoop_eq (n : Nat) : ∀ (r : Buffer) (b : GoString) (free : Nat),
    r.unread.length + (if free = 0 then 1 else 0) + r.unread.length ≤ n →
    readAllLoop r b free = (b ++ r.unread, none, ⟨[]⟩) := by
  induction n using Nat.strong_induction_on with
  | _ n ih =>
    intro r b free hn
    unfold readAllLoop
    split
    · rename_i r' chunk err heq
      unfold Buffer.Read at heq
      by_cases hu : r.unread = []
      · rw [if_pos hu] at heq
        simp only [Prod.mk.injEq] at heq
        obtain ⟨rfl, rfl, h3⟩ := heq
        by_cases hf : free = 0
        · simp [hf] at h3
        · simp only [hf, if_false, Option.some.injEq] at h3
          subst h3
          simp [hu]
      · rw [if_neg hu] at heq
        simp at heq
    · rename_i r' chunk heq
      unfold Buffer.Read at heq
      have hg : 0 < growCap (b ++ chunk).length - (b ++ chunk).length := by
        unfold growCap
        split_ifs <;> omega
      by_cases hu : r.unread = []
      · rw [if_pos hu] at heq
        simp only [Prod.mk.injEq] at heq
        obtain ⟨rfl, rfl, h3⟩ := heq
        have hf : free = 0 := by
          by_contra hf
          simp [hf] at h3
        subst hf
        simp only [List.length_nil, Nat.sub_self, if_true]
        simp only [List.append_nil] at hg
        have hg' : ¬ (growCap b.length - b.length = 0) := by omega
        rw [ih 0 _ _ _ _ (by simp [hg'])]
        · simp [hu]
        · simp [hu] at hn
          omega
      · rw [if_neg hu] at heq
        simp only [Prod.mk.injEq] at heq
        obtain ⟨rfl, rfl, -⟩ := heq
        have hpos : 0 < r.unread.length := List.length_pos.mpr hu
        have hg' : ¬ (growCap (b ++ List.take free r.unread).length -
            (b ++ List.take free r.unread).length = 0) := by omega
        split_ifs with hfree
        · rw [ih (2 * (r.unread.length - free)) _ _ _ _
            (by simp only [hg', if_false, List.length_drop]; omega)]
          · simp
          · simp only [List.length_take] at hfree
            split_ifs at hn <;> omega
        · rw [ih (2 * (r.unread.length - free) + 1) _ _ _ _
            (by simp only [List.length_drop]; split_ifs; omega)]
          · simp
          · simp only [List.length_take] at hfree
            split_ifs at hn <;> omega

theorem ReadAll_eq (r : Buffer) : ReadAll r = (r.unread, none, ⟨[]⟩) := by
  simpa [ReadAll] using readAllLoop_eq _ r [] 512 (le_refl _)

end Go.io

/-! ## `url.Parse` on a plain path -/

namespace Go.strings

theorem IndexByte_eq_none {c : Byte} {s : GoString} (h : c ∉ s) : IndexByte c s = none := by
  induction s with
  | nil => rfl
  | cons b s ih =>
    have hb : ¬ b = c := fun e => h (e ▸ List.mem_cons_self _ _)
    have hs : c ∉ s := fun e => h (List.mem_cons_of_mem _ e)
    simp [IndexByte, hb, ih hs]

theorem Cut_of_not_mem {c : Byte} {s : GoString} (h : c ∉ s) : Cut s c = (s, [], false) := by
  simp [Cut, IndexByte_eq_none h]

end Go.strings

namespace Go.url

open Go.strings encoding

theorem unescapeCheck_path_of_no_percent (s : GoString) (h : ch '%' ∉ s) (n : Nat) :
    unescapeCheck encodePath s n false = .ok (n, false) := by
  induction s with
  | nil => rfl
  | cons c s ih =>
    have hc : ¬ c = ch '%' := fun e => h (e ▸ List.mem_cons_self _ _)
    have hs : ch '%' ∉ s := fun e => h (List.mem_cons_of_mem _ e)
    unfold unescapeCheck
    rw [if_neg hc]
    by_cases hp : c = ch '+'
    · rw [if_pos hp]
      exact ih hs
    · rw [if_neg hp, if_neg (by simp)]
      exact ih hs

theorem unescape_path_of_no_percent (s : GoString) (h : ch '%' ∉ s) :
    unescape s encodePath = .ok s := by
  simp [unescape, unescapeCheck_path_of_no_percent s h 0]

theorem getScheme_slash (t : GoString) :
    getScheme (ch '/' :: t) = .ok ([], ch '/' :: t) := by
  unfold getScheme getSchemeFrom
  rfl

theorem parse_of_no_control {u : GoString} {url : URL} (h : parse u false = .ok url) :
    stringContainsCTLByte u = false := by
  unfold parse at h
  by_cases hc : stringContainsCTLByte u = true
  · simp [hc] at h
  · simpa using hc

/-- On a text that begins with one `/` (not `//`) and has no `%`, `?`, `#` and no control
byte, `Parse` succeeds and the path of the URL is the text itself. -/
theorem Parse_plain_path (t : GoString) (h2 : t.head? ≠ some (ch '/'))
    (hpct : ch '%' ∉ ch '/' :: t) (hq : ch '?' ∉ ch '/' :: t) (hh : ch '#' ∉ ch '/' :: t)
    (hctl : stringContainsCTLByte (ch '/' :: t) = false) :
    Parse (ch '/' :: t) =
      .ok { Path := ch '/' :: t,
            RawPath := if ch '/' :: t = escape (ch '/' :: t) encodePath then []
                       else ch '/' :: t } := by
  have hpre2 : HasPrefix (ch '/' :: t) (gostr "//") = false := by
    have hg : gostr "//" = [ch '/', ch '/'] := by decide
    rw [hg]
    cases t with
    | nil => rfl
    | cons b t =>
      have hb : ¬ ch '/' = b := fun e => h2 (by simp [e])
      simp [HasPrefix, List.isPrefixOf, hb]
  have hcount : CountByte (ch '/' :: t) (ch '?') ≠ 1 := by
    simp [CountByte, List.count_eq_zero_of_not_mem hq]
  have hstar : ¬ (ch '/' :: t = [ch '*']) := by
    intro e
    have := (List.cons.inj e).1
    exact absurd this (by decide)
  have hpre1 : HasPrefix (ch '/' :: t) [ch '/'] = true := by
    simp [HasPrefix, List.isPrefixOf]
  have hparse : parse (ch '/' :: t) false =
      .ok { Path := ch '/' :: t,
            RawPath := if ch '/' :: t = escape (ch '/' :: t) encodePath then []
                       else ch '/' :: t } := by
    unfold parse
    rw [if_neg (by simp [hctl]), if_neg (by simp), if_neg hstar, getScheme_slash]
    simp only [hcount, and_false, if_false, Cut_of_not_mem hq]
    unfold parseRest
    rw [if_neg (by simp [hpre1])]
    unfold parseAuthorityPath
    rw [if_neg (by simp [hpre2]), if_neg (by simp [ToLower])]
    simp [setPath, unescape_path_of_no_percent _ hpct, ToLower]
  unfold Parse
  simp only [Cut_of_not_mem hh, hparse, if_true]

end Go.url

/-! ## The wrapper -/

namespace lambdaurl

open Go.http Go.bytes Go.io Go.textproto

theorem convertRequest_of_parse {ev : LambdaFunctionURLRequest} {u : Go.url.URL}
    (h : Go.url.Parse ev.RequestContext.HTTP.Path = .ok u) :
    convertLambdaRequestToHTTPRequest ev =
      .ok { Method := ev.RequestContext.HTTP.Method, URL := u,
            Header := setRequestHeaders ev.Headers [], Body := NewBufferString ev.Body } := by
  simp [convertLambdaRequestToHTTPRequest, h]

theorem parse_of_convertRequest {ev : LambdaFunctionURLRequest} {req : Request}
    (h : convertLambdaRequestToHTTPRequest ev = .ok req) :
    Go.url.Parse ev.RequestContext.HTTP.Path = .ok req.URL ∧
    req = { Method := ev.RequestContext.HTTP.Method, URL := req.URL,
            Header := setRequestHeaders ev.Headers [], Body := NewBufferString ev.Body } := by
  unfold convertLambdaRequestToHTTPRequest at h
  split at h
  · cases h
  · rename_i u hu
    cases h
    exact ⟨hu, rfl⟩

theorem runWrites_body (Bs : List GoString) (r : ResponseRecorder) :
    (Bs.foldl (fun r B => (r.Write B).1) r) =
      { r with Body := ⟨r.Body.unread ++ Bs.flatten⟩ } := by
  induction Bs generalizing r with
  | nil => simp
  | cons B Bs ih =>
    rw [List.foldl_cons, ih]
    simp [ResponseRecorder.Write, Buffer.Write, List.append_assoc]

/-- C1. Malformed path rejection: when `url.Parse` rejects the path of the Inbound Event,
the function returned by `WrapHandler` returns that (non-nil) error with the zero-valued
Outbound Event, and makes no call to the handler, whatever the handler is. -/
theorem C1_malformed_path_rejected (handler : HandlerFunc) (ev : LambdaFunctionURLRequest)
    (err : Go.url.Error) (h : Go.url.Parse ev.RequestContext.HTTP.Path = .error err) :
    WrapHandler handler ev =
      { calls := [],
        result := .ok ({ StatusCode := 0, Headers := [], Body := [],
                         IsBase64Encoded := false, Cookies := [] }, some err) } := by
  simp [WrapHandler, convertLambdaRequestToHTTPRequest, h]

/-- C1, at the path `/%zz` with a handler that would write status 200 and a body. -/
theorem C1_malformed_path_rejected_witness :
    Go.url.Parse (gostr "/%zz") =
        .error ⟨gostr "parse", gostr "/%zz", .EscapeError (gostr "%zz")⟩ ∧
    WrapHandler (fun w _ => ((w.WriteHeader 200).Write (gostr "ok")).1)
        { RequestContext := { HTTP := { Method := gostr "GET", Path := gostr "/%zz" } } } =
      { calls := [],
        result := .ok ({ StatusCode := 0, Headers := [], Body := [],
                         IsBase64Encoded := false, Cookies := [] },
                       some ⟨gostr "parse", gostr "/%zz", .EscapeError (gostr "%zz")⟩) } :=
  ⟨by decide, C1_malformed_path_rejected _ _ _ (by decide)⟩

/-- Round-trip identity for the body, for a handler that only writes: after the byte
sequences `Bs` are written in order with `Write` to a recorder made by
`NewResponseRecorder`, `convertHTTPResponseToLambdaResponse` returns an Outbound Event
whose `Body` is their concatenation, byte for byte; one write of `B` gives `B`, and no
operation at all gives the empty body. -/
theorem writes_body_round_trip (Bs : List GoString) :
    (∃ e, convertHTTPResponseToLambdaResponse
        (Bs.foldl (fun r B => (r.Write B).1) NewResponseRecorder) = .ok e ∧
      e.Body = Bs.flatten) ∧
    (∀ B : GoString, ∃ e, convertHTTPResponseToLambdaResponse
        (NewResponseRecorder.Write B).1 = .ok e ∧ e.Body = B) ∧
    (∃ e, convertHTTPResponseToLambdaResponse NewResponseRecorder = .ok e ∧ e.Body = []) := by
  have key : ∀ Bs : List GoString, convertHTTPResponseToLambdaResponse
      (Bs.foldl (fun r B => (r.Write B).1) NewResponseRecorder) =
        .ok { StatusCode := 0, Headers := [], Body := Bs.flatten } := by
    intro Bs
    rw [runWrites_body]
    simp [convertHTTPResponseToLambdaResponse, ReadAll_eq, NewResponseRecorder,
      ResponseRecorder.Header, setResponseHeaders, Buffer.new]
  refine ⟨⟨_, key Bs, rfl⟩, ?_, ⟨_, key [], rfl⟩⟩
  intro B
  refine ⟨_, key [B], ?_⟩
  simp

/-- C9. The body stream of the Generic Request: when the path parses, reading
`Request.Body` to its end with `io.ReadAll` gives exactly the bytes of the event's
`Body`, with a nil error (so the empty sequence for an empty body), whatever
`IsBase64Encoded` says. -/
theorem C9_request_body_verbatim (ev : LambdaFunctionURLRequest) (req : Request)
    (h : convertLambdaRequestToHTTPRequest ev = .ok req) :
    ReadAll req.Body = (ev.Body, none, ⟨[]⟩) ∧
    (ev.Body = [] → (ReadAll req.Body).1 = []) := by
  obtain ⟨-, hreq⟩ := parse_of_convertRequest h
  rw [hreq, ReadAll_eq]
  simp only [NewBufferString, true_and]
  intro h0
  exact h0

/-- C9, at an event with a base64-flagged body of four bytes, one of them not UTF-8. -/
theorem C9_request_body_verbatim_witness :
    ReadAll (NewBufferString [ch 'a', 0xff, ch '=', ch '=']) =
      ([ch 'a', 0xff, ch '=', ch '='], none, ⟨[]⟩) ∧
    ([ch 'a', 0xff, ch '=', ch '='] = ([] : GoString) →
      (ReadAll (NewBufferString [ch 'a', 0xff, ch '=', ch '='])).1 = []) :=
  C9_request_body_verbatim
    { RequestContext := { HTTP := { Method := gostr "POST", Path := gostr "/items/42" } },
      Body := [ch 'a', 0xff, ch '=', ch '='], IsBase64Encoded := true }
    { Method := gostr "POST", URL := { Path := gostr "/items/42" }, Header := [],
      Body := NewBufferString [ch 'a', 0xff, ch '=', ch '='] }
    (by decide)

theorem setResponseHeaders_ok (hs : Header) :
    ∀ acc : GoMap GoString, NoEmptyValues hs → GoMap.WF hs →
    ∃ out, setResponseHeaders hs acc = .ok out ∧ (GoMap.WF acc → GoMap.WF out) ∧
      ∀ k, GoMap.lookup k out =
        match GoMap.lookup k hs with
        | some vs => vs.head?
        | none => GoMap.lookup k acc := by
  induction hs with
  | nil =>
    intro acc _ _
    exact ⟨acc, rfl, id, fun k => by simp [GoMap.lookup]⟩
  | cons e hs ih =>
    intro acc hne hwf
    obtain ⟨k0, vs0⟩ := e
    have hne' : NoEmptyValues hs := fun kv hkv => hne kv (List.mem_cons_of_mem _ hkv)
    have hvs0 : vs0 ≠ [] := hne (k0, vs0) (List.mem_cons_self _ _)
    simp only [GoMap.WF, GoMap.keys, List.map_cons, List.nodup_cons] at hwf
    obtain ⟨v, vs, rfl⟩ := List.exists_cons_of_ne_nil hvs0
    obtain ⟨out, hout, hwfout, hlook⟩ := ih (GoMap.assign k0 v acc) hne' hwf.2
    refine ⟨out, ?_, fun hacc => hwfout (GoMap.WF_assign k0 v hacc), ?_⟩
    · simp [setResponseHeaders, hout]
    · intro k
      rw [hlook k]
      by_cases hk : k0 = k
      · subst hk
        have hnone : GoMap.lookup k0 hs = none := (GoMap.lookup_eq_none_iff k0 hs).mpr hwf.1
        simp [GoMap.lookup, hnone, GoMap.lookup_assign_self]
      · simp [GoMap.lookup, hk, GoMap.lookup_assign_ne v acc hk]

theorem setResponseHeaders_panics (hs : Header) :
    ∀ acc : GoMap GoString, (∃ kv ∈ hs, kv.2 = []) →
    setResponseHeaders hs acc = .error (.indexOutOfRange 0 0) := by
  induction hs with
  | nil =>
    intro acc h
    obtain ⟨kv, hkv, -⟩ := h
    simp at hkv
  | cons e hs ih =>
    intro acc h
    obtain ⟨k0, vs0⟩ := e
    cases vs0 with
    | nil => simp [setResponseHeaders]
    | cons v vs =>
      obtain ⟨kv, hkv, hnil⟩ := h
      rcases List.mem_cons.mp hkv with heq | hmem
      · subst heq
        simp at hnil
      · simpa [setResponseHeaders] using ih _ ⟨kv, hmem, hnil⟩

theorem convertResponse_ok_iff (r : ResponseRecorder) (e : LambdaFunctionURLResponse) :
    convertHTTPResponseToLambdaResponse r = .ok e ↔
      ∃ headers, setResponseHeaders r.HeaderMap [] = .ok headers ∧
        e = { StatusCode := r.StatusCode, Headers := headers, Body := r.Body.unread } := by
  unfold convertHTTPResponseToLambdaResponse
  simp only [ReadAll_eq, ResponseRecorder.Header]
  constructor
  · intro h
    split at h
    · cases h
    · rename_i headers hh
      cases h
      exact ⟨headers, hh, rfl⟩
  · rintro ⟨headers, hh, rfl⟩
    simp [hh]

/-- C3 (evaluation at the failing input). A recorder whose header map holds the key
`X-Empty` with the empty sequence of values, as a handler leaves it after
`w.Header()["X-Empty"] = nil`: `convertHTTPResponseToLambdaResponse` panics on
`values[0]` with an index out of range, and so does the function returned by
`WrapHandler` for such a handler. -/
theorem C3_translator_panics_on_empty_values :
    convertHTTPResponseToLambdaResponse
        { StatusCode := 200, HeaderMap := [(gostr "X-Empty", [])], Body := ⟨gostr "ok"⟩ } =
      .error (.indexOutOfRange 0 0) ∧
    (WrapHandler
        (fun w _ => runOps [.WriteHeader 200, .HeaderAssign (gostr "X-Empty") [],
                            .Write (gostr "ok")] w)
        { RequestContext := { HTTP := { Method := gostr "GET", Path := gostr "/" } } }).result =
      .error (.indexOutOfRange 0 0) := by
  constructor
  · simp [convertHTTPResponseToLambdaResponse, ResponseRecorder.Header, setResponseHeaders]
  · have hreq : convertLambdaRequestToHTTPRequest
        { RequestContext := { HTTP := { Method := gostr "GET", Path := gostr "/" } } } =
        .ok { Method := gostr "GET", URL := { Path := gostr "/" }, Header := [],
              Body := NewBufferString [] } := by decide
    simp [WrapHandler, hreq, runOps, SinkOp.apply, convertHTTPResponseToLambdaResponse,
      ResponseRecorder.Header, ResponseRecorder.WriteHeader, ResponseRecorder.Write,
      NewResponseRecorder, GoMap.assign, setResponseHeaders]

/-- C4. Multi-value collapse: for a recorder whose header map holds a non-empty sequence
of values under each key, `convertHTTPResponseToLambdaResponse` returns an Outbound
Event whose header map has exactly the keys of the recorder's map and maps each key to
the first value of its sequence, and to nothing else. -/
theorem C4_multi_value_collapse (r : ResponseRecorder) (hwf : GoMap.WF r.HeaderMap)
    (hne : NoEmptyValues r.HeaderMap) :
    ∃ e, convertHTTPResponseToLambdaResponse r = .ok e ∧
      GoMap.WF e.Headers ∧
      (∀ K, K ∈ GoMap.keys e.Headers ↔ K ∈ GoMap.keys r.HeaderMap) ∧
      (∀ K v vs, GoMap.lookup K r.HeaderMap = some (v :: vs) →
        GoMap.lookup K e.Headers = some v) ∧
      (∀ K v, GoMap.lookup K e.Headers = some v →
        ∃ vs, GoMap.lookup K r.HeaderMap = some (v :: vs)) := by
  obtain ⟨out, hout, hwfout, hlook⟩ := setResponseHeaders_ok r.HeaderMap [] hne hwf
  have hval : ∀ K v, GoMap.lookup K out = some v ↔
      ∃ vs, GoMap.lookup K r.HeaderMap = some (v :: vs) := by
    intro K v
    rw [hlook K]
    cases hl : GoMap.lookup K r.HeaderMap with
    | none => simp [GoMap.lookup]
    | some vs =>
      have hvs : vs ≠ [] := hne (K, vs) (GoMap.mem_of_lookup hl)
      obtain ⟨v0, vs0, rfl⟩ := List.exists_cons_of_ne_nil hvs
      simp
  refine ⟨{ StatusCode := r.StatusCode, Headers := out, Body := r.Body.unread },
    (convertResponse_ok_iff r _).mpr ⟨out, hout, rfl⟩, hwfout (by simp [GoMap.WF, GoMap.keys]),
    ?_, ?_, ?_⟩
  · intro K
    rw [GoMap.mem_keys_iff_lookup, GoMap.mem_keys_iff_lookup]
    constructor
    · rintro ⟨v, hv⟩
      obtain ⟨vs, hvs⟩ := (hval K v).mp hv
      exact ⟨_, hvs⟩
    · rintro ⟨vs, hvs⟩
      have hne' : vs ≠ [] := hne (K, vs) (GoMap.mem_of_lookup hvs)
      obtain ⟨v0, vs0, rfl⟩ := List.exists_cons_of_ne_nil hne'
      exact ⟨v0, (hval K v0).mpr ⟨vs0, hvs⟩⟩
  · intro K v vs h
    exact (hval K v).mpr ⟨vs, h⟩
  · intro K v h
    exact (hval K v).mp h

/-- C4, at the header map with `K` holding `[v1, v2]`: the Outbound Event has `v1`. -/
theorem C4_multi_value_collapse_witness :
    ∃ e, convertHTTPResponseToLambdaResponse
        { StatusCode := 200,
          HeaderMap := [(gostr "Set-Cookie", [gostr "a=1", gostr "b=2"])],
          Body := ⟨[]⟩ } = .ok e ∧
      GoMap.WF e.Headers ∧
      (∀ K, K ∈ GoMap.keys e.Headers ↔ K ∈ GoMap.keys [(gostr "Set-Cookie", [gostr "a=1", gostr "b=2"])]) ∧
      (∀ K v vs, GoMap.lookup K [(gostr "Set-Cookie", [gostr "a=1", gostr "b=2"])] = some (v :: vs) →
        GoMap.lookup K e.Headers = some v) ∧
      (∀ K v, GoMap.lookup K e.Headers = some v →
        ∃ vs, GoMap.lookup K [(gostr "Set-Cookie", [gostr "a=1", gostr "b=2"])] = some (v :: vs)) :=
  C4_multi_value_collapse
    { StatusCode := 200, HeaderMap := [(gostr "Set-Cookie", [gostr "a=1", gostr "b=2"])],
      Body := ⟨[]⟩ }
    (by simp [GoMap.WF, GoMap.keys])
    (by simp [NoEmptyValues])

theorem lookup_setRequestHeaders (hs : GoMap GoString) :
    ∀ (acc : Header) (K : GoString),
    GoMap.lookup K (setRequestHeaders hs acc) =
      match lastWithCanonicalKey K hs with
      | some v => some [v]
      | none => GoMap.lookup K acc := by
  induction hs with
  | nil =>
    intro acc K
    simp [setRequestHeaders, lastWithCanonicalKey]
  | cons e hs ih =>
    intro acc K
    obtain ⟨k, v⟩ := e
    simp only [setRequestHeaders, lastWithCanonicalKey]
    rw [ih]
    cases hl : lastWithCanonicalKey K hs with
    | some v' => rfl
    | none =>
      simp only [Header.Set, GoMap.lookup_assign]
      by_cases hk : CanonicalMIMEHeaderKey k = K
      · simp [hk]
      · simp [hk]

theorem lastWithCanonicalKey_some {K v : GoString} {hs : GoMap GoString}
    (h : lastWithCanonicalKey K hs = some v) :
    ∃ k, (k, v) ∈ hs ∧ CanonicalMIMEHeaderKey k = K := by
  induction hs with
  | nil => simp [lastWithCanonicalKey] at h
  | cons e hs ih =>
    obtain ⟨k0, v0⟩ := e
    simp only [lastWithCanonicalKey] at h
    cases hl : lastWithCanonicalKey K hs with
    | some v' =>
      rw [hl] at h
      cases h
      obtain ⟨k, hk, hc⟩ := ih hl
      exact ⟨k, List.mem_cons_of_mem _ hk, hc⟩
    | none =>
      rw [hl] at h
      by_cases hk : CanonicalMIMEHeaderKey k0 = K
      · simp only [hk, if_true, Option.some.injEq] at h
        subst h
        exact ⟨k0, List.mem_cons_self _ _, hk⟩
      · simp [hk] at h

theorem lastWithCanonicalKey_of_mem {k v : GoString} {hs : GoMap GoString}
    (hmem : (k, v) ∈ hs)
    (huniq : ∀ k' v', (k', v') ∈ hs →
      CanonicalMIMEHeaderKey k' = CanonicalMIMEHeaderKey k → v' = v) :
    lastWithCanonicalKey (CanonicalMIMEHeaderKey k) hs = some v := by
  induction hs with
  | nil => simp at hmem
  | cons e hs ih =>
    obtain ⟨k0, v0⟩ := e
    have huniq' : ∀ k' v', (k', v') ∈ hs →
        CanonicalMIMEHeaderKey k' = CanonicalMIMEHeaderKey k → v' = v :=
      fun k' v' h' => huniq k' v' (List.mem_cons_of_mem _ h')
    simp only [lastWithCanonicalKey]
    cases hl : lastWithCanonicalKey (CanonicalMIMEHeaderKey k) hs with
    | some v' =>
      obtain ⟨k', hk', hc⟩ := lastWithCanonicalKey_some hl
      rw [huniq' k' v' hk' hc]
    | none =>
      rcases List.mem_cons.mp hmem with heq | hmem'
      · cases heq
        simp
      · rw [ih hmem' huniq'] at hl
        cases hl

theorem lastWithCanonicalKey_exists {k v : GoString} {hs : GoMap GoString}
    (hmem : (k, v) ∈ hs) :
    ∃ v', lastWithCanonicalKey (CanonicalMIMEHeaderKey k) hs = some v' := by
  induction hs with
  | nil => simp at hmem
  | cons e hs ih =>
    obtain ⟨k0, v0⟩ := e
    simp only [lastWithCanonicalKey]
    cases hl : lastWithCanonicalKey (CanonicalMIMEHeaderKey k) hs with
    | some v1 => exact ⟨v1, rfl⟩
    | none =>
      rcases List.mem_cons.mp hmem with heq | hmem'
      · cases heq
        exact ⟨v, by simp⟩
      · obtain ⟨v1, hv1⟩ := ih hmem'
        rw [hv1] at hl
        cases hl

theorem WF_setRequestHeaders (hs : GoMap GoString) :
    ∀ acc : Header, GoMap.WF acc → GoMap.WF (setRequestHeaders hs acc) := by
  induction hs with
  | nil => exact fun _ h => h
  | cons e hs ih =>
    intro acc hacc
    obtain ⟨k, v⟩ := e
    exact ih _ (GoMap.WF_assign _ _ hacc)

/-- C5 (amended). Request headers: when the path parses, the header map of the Generic
Request is a well-formed map whose keys are exactly the canonical forms
(`textproto.CanonicalMIMEHeaderKey`) of the inbound keys; an inbound entry `(k, v)`
is found under the canonical form of `k` as the one-element sequence `[v]` as long as
no inbound entry with the same canonical key has another value; every value in the map
is such a one-element sequence of an inbound entry; and when all inbound keys are in
canonical form, each `k` itself holds `[v]`. -/
theorem C5_request_headers_canonical (ev : LambdaFunctionURLRequest) (req : Request)
    (h : convertLambdaRequestToHTTPRequest ev = .ok req) :
    GoMap.WF req.Header ∧
    (∀ K, K ∈ GoMap.keys req.Header ↔
      ∃ k ∈ GoMap.keys ev.Headers, CanonicalMIMEHeaderKey k = K) ∧
    (∀ k v, (k, v) ∈ ev.Headers →
      (∀ k' v', (k', v') ∈ ev.Headers →
        CanonicalMIMEHeaderKey k' = CanonicalMIMEHeaderKey k → v' = v) →
      GoMap.lookup (CanonicalMIMEHeaderKey k) req.Header = some [v]) ∧
    (∀ K vs, GoMap.lookup K req.Header = some vs →
      ∃ k v, (k, v) ∈ ev.Headers ∧ CanonicalMIMEHeaderKey k = K ∧ vs = [v]) ∧
    (GoMap.WF ev.Headers → (∀ k ∈ GoMap.keys ev.Headers, CanonicalMIMEHeaderKey k = k) →
      ∀ k v, (k, v) ∈ ev.Headers → GoMap.lookup k req.Header = some [v]) := by
  obtain ⟨-, hreq⟩ := parse_of_convertRequest h
  have hH : req.Header = setRequestHeaders ev.Headers [] := by
    rw [hreq]
  have hval : ∀ K vs, GoMap.lookup K req.Header = some vs →
      ∃ k v, (k, v) ∈ ev.Headers ∧ CanonicalMIMEHeaderKey k = K ∧ vs = [v] := by
    intro K vs hl
    rw [hH, lookup_setRequestHeaders] at hl
    cases hlast : lastWithCanonicalKey K ev.Headers with
    | none => simp [hlast, GoMap.lookup] at hl
    | some v =>
      simp only [hlast, Option.some.injEq] at hl
      obtain ⟨k, hk, hc⟩ := lastWithCanonicalKey_some hlast
      exact ⟨k, v, hk, hc, hl.symm⟩
  have hfound : ∀ k v, (k, v) ∈ ev.Headers →
      (∀ k' v', (k', v') ∈ ev.Headers →
        CanonicalMIMEHeaderKey k' = CanonicalMIMEHeaderKey k → v' = v) →
      GoMap.lookup (CanonicalMIMEHeaderKey k) req.Header = some [v] := by
    intro k v hmem huniq
    rw [hH, lookup_setRequestHeaders, lastWithCanonicalKey_of_mem hmem huniq]
  refine ⟨?_, ?_, hfound, hval, ?_⟩
  · rw [hH]
    exact WF_setRequestHeaders _ _ (by simp [GoMap.WF, GoMap.keys])
  · intro K
    rw [GoMap.mem_keys_iff_lookup]
    constructor
    · rintro ⟨vs, hvs⟩
      obtain ⟨k, v, hk, hc, -⟩ := hval K vs hvs
      exact ⟨k, List.mem_map.mpr ⟨(k, v), hk, rfl⟩, hc⟩
    · rintro ⟨k, hk, hc⟩
      rw [hH, lookup_setRequestHeaders]
      cases hlast : lastWithCanonicalKey K ev.Headers with
      | some v => exact ⟨[v], rfl⟩
      | none =>
        exfalso
        obtain ⟨⟨k', v'⟩, hmem, hk'⟩ := List.mem_map.mp hk
        simp only at hk'
        subst hk'
        subst hc
        have hsome := lastWithCanonicalKey_exists hmem
        obtain ⟨v, hv⟩ := hsome
        rw [hv] at hlast
        cases hlast
  · intro hwf hcanon k v hmem
    have hk : k ∈ GoMap.keys ev.Headers := List.mem_map.mpr ⟨(k, v), hmem, rfl⟩
    have := hfound k v hmem (by
      intro k' v' hmem' hc
      have hk' : k' ∈ GoMap.keys ev.Headers := List.mem_map.mpr ⟨(k', v'), hmem', rfl⟩
      rw [hcanon k' hk', hcanon k hk] at hc
      subst hc
      have h1 := GoMap.lookup_of_mem hwf hmem
      have h2 := GoMap.lookup_of_mem hwf hmem'
      rw [h1] at h2
      exact (Option.some.inj h2).symm)
    rwa [hcanon k hk] at this

/-- C5 (amended), at an event with the lower-case header `x-test: 1`, as a Function URL
delivers it: the Generic Request holds `X-Test: [1]`. -/
theorem C5_request_headers_canonical_witness :
    convertLambdaRequestToHTTPRequest
        { RequestContext := { HTTP := { Method := gostr "GET", Path := gostr "/items/42" } },
          Headers := [(gostr "x-test", gostr "1")] } =
      .ok { Method := gostr "GET", URL := { Path := gostr "/items/42" },
            Header := [(gostr "X-Test", [gostr "1"])], Body := ⟨[]⟩ } ∧
    GoMap.lookup (CanonicalMIMEHeaderKey (gostr "x-test")) [(gostr "X-Test", [gostr "1"])] =
      some [gostr "1"] :=
  ⟨by decide,
   (C5_request_headers_canonical
      { RequestContext := { HTTP := { Method := gostr "GET", Path := gostr "/items/42" } },
        Headers := [(gostr "x-test", gostr "1")] }
      { Method := gostr "GET", URL := { Path := gostr "/items/42" },
        Header := [(gostr "X-Test", [gostr "1"])], Body := ⟨[]⟩ }
      (by decide)).2.2.1 (gostr "x-test") (gostr "1") (by simp)
      (by
        intro k' v' hmem _
        simp only [List.mem_singleton, Prod.mk.injEq] at hmem
        exact hmem.2)⟩

/-- C5 as stated fails: for the inbound header `x-test: 1` the request's map has no key
`x-test` (and its only key, `X-Test`, is not an inbound key). -/
theorem C5_counterexample :
    ¬ (∀ (ev : LambdaFunctionURLRequest) (req : Request),
        convertLambdaRequestToHTTPRequest ev = .ok req →
        (∀ k v, (k, v) ∈ ev.Headers → GoMap.lookup k req.Header = some [v]) ∧
        (∀ K, K ∈ GoMap.keys req.Header → K ∈ GoMap.keys ev.Headers)) := by
  intro H
  have h := (H
    { RequestContext := { HTTP := { Method := gostr "GET", Path := gostr "/items/42" } },
      Headers := [(gostr "x-test", gostr "1")] }
    { Method := gostr "GET", URL := { Path := gostr "/items/42" },
      Header := [(gostr "X-Test", [gostr "1"])], Body := ⟨[]⟩ }
    (by decide)).1 (gostr "x-test") (gostr "1") (by simp)
  exact absurd h (by decide)

theorem parse_of_Parse_no_fragment {p : GoString} {u : Go.url.URL} (hh : ch '#' ∉ p)
    (h : Go.url.Parse p = .ok u) : Go.url.parse p false = .ok u := by
  unfold Go.url.Parse at h
  simp only [Go.strings.Cut_of_not_mem hh] at h
  split at h
  · cases h
  · rename_i url hurl
    simp only [if_true] at h
    rw [hurl, Except.ok.inj h]

/-- C6 (amended). Method and URL of the Generic Request: when the path parses, `Method`
is the event's method string and `URL` is the value `url.Parse` returns for the event's
path string; the path component of that URL is the event's path string itself whenever
the string begins with one `/` (not `//`) and contains no `%`, `?` or `#`. -/
theorem C6_request_method_and_url (ev : LambdaFunctionURLRequest) (req : Request)
    (h : convertLambdaRequestToHTTPRequest ev = .ok req) :
    req.Method = ev.RequestContext.HTTP.Method ∧
    Go.url.Parse ev.RequestContext.HTTP.Path = .ok req.URL ∧
    (∀ t : GoString, ev.RequestContext.HTTP.Path = ch '/' :: t → t.head? ≠ some (ch '/') →
      ch '%' ∉ t → ch '?' ∉ t → ch '#' ∉ t →
      req.URL.Path = ev.RequestContext.HTTP.Path) := by
  obtain ⟨hparse, hreq⟩ := parse_of_convertRequest h
  refine ⟨by rw [hreq], hparse, ?_⟩
  intro t hp h2 hpct hq hh
  rw [hp] at hparse ⊢
  have hpct' : ch '%' ∉ ch '/' :: t := by
    intro hm
    rcases List.mem_cons.mp hm with e | e
    · exact absurd e (by decide)
    · exact hpct e
  have hq' : ch '?' ∉ ch '/' :: t := by
    intro hm
    rcases List.mem_cons.mp hm with e | e
    · exact absurd e (by decide)
    · exact hq e
  have hh' : ch '#' ∉ ch '/' :: t := by
    intro hm
    rcases List.mem_cons.mp hm with e | e
    · exact absurd e (by decide)
    · exact hh e
  have hctl := Go.url.parse_of_no_control (parse_of_Parse_no_fragment hh' hparse)
  rw [Go.url.Parse_plain_path t h2 hpct' hq' hh' hctl] at hparse
  rw [← Except.ok.inj hparse]

/-- C6 (amended), at the event with method `GET` and path `/items/42`. -/
theorem C6_request_method_and_url_witness :
    ∃ req, convertLambdaRequestToHTTPRequest
        { RequestContext := { HTTP := { Method := gostr "GET", Path := gostr "/items/42" } } } =
        .ok req ∧
      req.Method = gostr "GET" ∧ req.URL.Path = gostr "/items/42" :=
  ⟨{ Method := gostr "GET", URL := { Path := gostr "/items/42" }, Header := [],
     Body := ⟨[]⟩ }, by decide,
   (C6_request_method_and_url
      { RequestContext := { HTTP := { Method := gostr "GET", Path := gostr "/items/42" } } }
      { Method := gostr "GET", URL := { Path := gostr "/items/42" }, Header := [],
        Body := ⟨[]⟩ } (by decide)).1,
   (C6_request_method_and_url
      { RequestContext := { HTTP := { Method := gostr "GET", Path := gostr "/items/42" } } }
      { Method := gostr "GET", URL := { Path := gostr "/items/42" }, Header := [],
        Body := ⟨[]⟩ } (by decide)).2.2 (gostr "items/42") (by decide) (by decide)
      (by decide) (by decide) (by decide)⟩

/-- C6 as stated fails: the path `/a%20b` parses, and the URL's path component is the
decoded `/a b`, not the event's path string. -/
theorem C6_counterexample :
    ¬ (∀ (ev : LambdaFunctionURLRequest) (req : Request),
        convertLambdaRequestToHTTPRequest ev = .ok req →
        req.Method = ev.RequestContext.HTTP.Method ∧
        req.URL.Path = ev.RequestContext.HTTP.Path) := by
  intro H
  have h := (H
    { RequestContext := { HTTP := { Method := gostr "GET", Path := gostr "/a%20b" } } }
    { Method := gostr "GET", URL := { Path := gostr "/a b" }, Header := [], Body := ⟨[]⟩ }
    (by decide)).2
  exact absurd h (by decide)

theorem runOps_two_sets (K v1 v2 : GoString) :
    runOps [.HeaderSet K v1, .HeaderSet K v2] NewResponseRecorder =
      { StatusCode := 0, HeaderMap := [(CanonicalMIMEHeaderKey K, [v2])], Body := ⟨[]⟩ } := by
  simp [runOps, SinkOp.apply, Header.Set, GoMap.assign, NewResponseRecorder,
    ResponseRecorder.Header, Buffer.new]

theorem convertResponse_two_sets (K v1 v2 : GoString) :
    convertHTTPResponseToLambdaResponse
        (runOps [.HeaderSet K v1, .HeaderSet K v2] NewResponseRecorder) =
      .ok { StatusCode := 0, Headers := [(CanonicalMIMEHeaderKey K, v2)], Body := [] } := by
  rw [convertResponse_ok_iff, runOps_two_sets]
  exact ⟨_, by simp [setResponseHeaders, GoMap.assign], rfl⟩

/-- C7 (amended). Header last-write-wins: after a handler calls `Header().Set(K, v1)`
and then `Header().Set(K, v2)` on a new recorder, with `v1 ≠ v2`, the Outbound Event
has exactly one header, under the canonical form of `K`
(`textproto.CanonicalMIMEHeaderKey`), with value `v2`; no header has value `v1`; and
the header is found under `K` itself when `K` is in canonical form.  After the two
assignments `Header()[K] = []string{v1}` and `Header()[K] = []string{v2}` on the map
itself, the one header is under `K` as written, with value `v2`. -/
theorem C7_header_last_write_wins (K v1 v2 : GoString) (hne : v1 ≠ v2) :
    (∃ e, convertHTTPResponseToLambdaResponse
        (runOps [.HeaderSet K v1, .HeaderSet K v2] NewResponseRecorder) = .ok e ∧
      GoMap.keys e.Headers = [CanonicalMIMEHeaderKey K] ∧
      GoMap.lookup (CanonicalMIMEHeaderKey K) e.Headers = some v2 ∧
      (∀ k, GoMap.lookup k e.Headers ≠ some v1) ∧
      (CanonicalMIMEHeaderKey K = K → GoMap.lookup K e.Headers = some v2)) ∧
    (∃ e, convertHTTPResponseToLambdaResponse
        (runOps [.HeaderAssign K [v1], .HeaderAssign K [v2]] NewResponseRecorder) = .ok e ∧
      GoMap.keys e.Headers = [K] ∧
      GoMap.lookup K e.Headers = some v2 ∧
      (∀ k, GoMap.lookup k e.Headers ≠ some v1)) := by
  have hval : ∀ K' k : GoString, GoMap.lookup k [(K', v2)] ≠ some v1 := by
    intro K' k hk
    simp only [GoMap.lookup] at hk
    split at hk
    · exact hne (Option.some.inj hk).symm
    · cases hk
  refine ⟨⟨_, convertResponse_two_sets K v1 v2, ?_, ?_, hval _, ?_⟩,
    ⟨{ StatusCode := 0, Headers := [(K, v2)], Body := [] }, ?_, ?_, ?_, hval _⟩⟩
  · simp [GoMap.keys]
  · simp [GoMap.lookup]
  · intro hc
    simp [GoMap.lookup, hc]
  · rw [convertResponse_ok_iff]
    refine ⟨[(K, v2)], ?_, ?_⟩
    · simp [runOps, SinkOp.apply, GoMap.assign, NewResponseRecorder,
        ResponseRecorder.Header, setResponseHeaders]
    · simp [runOps, SinkOp.apply, NewResponseRecorder, Buffer.new]
  · simp [GoMap.keys]
  · simp [GoMap.lookup]

/-- C7 (amended), at `Content-Type` set to `text/html` and then to `text/plain`. -/
theorem C7_header_last_write_wins_witness :
    gostr "text/html" ≠ gostr "text/plain" ∧
    CanonicalMIMEHeaderKey (gostr "Content-Type") = gostr "Content-Type" ∧
    ∃ e, convertHTTPResponseToLambdaResponse
        (runOps [.HeaderSet (gostr "Content-Type") (gostr "text/html"),
                 .HeaderSet (gostr "Content-Type") (gostr "text/plain")]
          NewResponseRecorder) = .ok e ∧
      GoMap.keys e.Headers = [CanonicalMIMEHeaderKey (gostr "Content-Type")] ∧
      GoMap.lookup (CanonicalMIMEHeaderKey (gostr "Content-Type")) e.Headers =
        some (gostr "text/plain") ∧
      (∀ k, GoMap.lookup k e.Headers ≠ some (gostr "text/html")) ∧
      (CanonicalMIMEHeaderKey (gostr "Content-Type") = gostr "Content-Type" →
        GoMap.lookup (gostr "Content-Type") e.Headers = some (gostr "text/plain")) :=
  ⟨by decide, by decide,
   (C7_header_last_write_wins (gostr "Content-Type") (gostr "text/html")
     (gostr "text/plain") (by decide)).1⟩

/-- C7 as stated fails: for `K = x-test` the Outbound Event has no header `x-test`; the
value `2` is under `X-Test`. -/
theorem C7_counterexample :
    ¬ (∀ K v1 v2 : GoString, v1 ≠ v2 →
        ∃ e, convertHTTPResponseToLambdaResponse
            (runOps [.HeaderSet K v1, .HeaderSet K v2] NewResponseRecorder) = .ok e ∧
          GoMap.lookup K e.Headers = some v2 ∧
          (∀ k, GoMap.lookup k e.Headers ≠ some v1)) := by
  intro H
  obtain ⟨e, he, hl, -⟩ := H (gostr "x-test") (gostr "1") (gostr "2") (by decide)
  rw [convertResponse_two_sets] at he
  rw [← Except.ok.inj he] at hl
  exact absurd hl (by decide)

theorem getLast?_getD_cons (a d : Int) (l : List Int) :
    (a :: l).getLast?.getD d = l.getLast?.getD a := by
  cases l with
  | nil => rfl
  | cons b l =>
    rw [List.getLast?_cons_cons, List.getLast?_eq_getLast _ (List.cons_ne_nil _ _)]
    rfl

theorem runOps_status (ops : List SinkOp) :
    ∀ r : ResponseRecorder,
    (runOps ops r).StatusCode = (statusArgs ops).getLast?.getD r.StatusCode := by
  induction ops with
  | nil => intro r; rfl
  | cons op ops ih =>
    intro r
    have hstep : runOps (op :: ops) r = runOps ops (op.apply r) := rfl
    rw [hstep, ih]
    cases op <;>
      simp [statusArgs, SinkOp.apply, ResponseRecorder.WriteHeader, ResponseRecorder.Write,
        getLast?_getD_cons]

theorem runOps_noEmptyValues (ops : List SinkOp) :
    ∀ r : ResponseRecorder, (∀ key, SinkOp.HeaderAssign key [] ∉ ops) →
    NoEmptyValues r.HeaderMap → NoEmptyValues (runOps ops r).HeaderMap := by
  induction ops with
  | nil => exact fun _ _ h => h
  | cons op ops ih =>
    intro r hops hr
    have hstep : runOps (op :: ops) r = runOps ops (op.apply r) := rfl
    rw [hstep]
    apply ih _ (fun key hk => hops key (List.mem_cons_of_mem _ hk))
    cases op with
    | WriteHeader s => exact hr
    | Write data => exact hr
    | HeaderSet key value =>
      intro kv hkv
      rcases GoMap.mem_assign hkv with h | h
      · rw [h]
        simp
      · exact hr kv h
    | HeaderAdd key value =>
      intro kv hkv
      rcases GoMap.mem_assign hkv with h | h
      · rw [h]
        simp
      · exact hr kv h
    | HeaderDel key => exact fun kv hkv => hr kv (GoMap.mem_delete hkv)
    | HeaderAssign key values =>
      intro kv hkv
      rcases GoMap.mem_assign hkv with h | h
      · rw [h]
        intro hnil
        simp only at hnil
        subst hnil
        exact hops key (List.mem_cons_self _ _)
      · exact hr kv h
    | HeaderDelete key => exact fun kv hkv => hr kv (GoMap.mem_delete hkv)

theorem setResponseHeaders_total (hs : Header) :
    ∀ acc : GoMap GoString, NoEmptyValues hs → ∃ out, setResponseHeaders hs acc = .ok out := by
  induction hs with
  | nil => exact fun acc _ => ⟨acc, rfl⟩
  | cons e hs ih =>
    intro acc hne
    obtain ⟨k0, vs0⟩ := e
    have hvs0 : vs0 ≠ [] := hne (k0, vs0) (List.mem_cons_self _ _)
    obtain ⟨v, vs, rfl⟩ := List.exists_cons_of_ne_nil hvs0
    obtain ⟨out, hout⟩ := ih (GoMap.assign k0 v acc)
      (fun kv hkv => hne kv (List.mem_cons_of_mem _ hkv))
    exact ⟨out, by simp [setResponseHeaders, hout]⟩

theorem statusArgs_append (pre post : List SinkOp) :
    statusArgs (pre ++ post) = statusArgs pre ++ statusArgs post := by
  induction pre with
  | nil => rfl
  | cons op pre ih => cases op <;> simp [statusArgs, ih]

theorem statusArgs_eq_nil (ops : List SinkOp) (h : ∀ s, SinkOp.WriteHeader s ∉ ops) :
    statusArgs ops = [] := by
  induction ops with
  | nil => rfl
  | cons op ops ih =>
    have h' : ∀ s, SinkOp.WriteHeader s ∉ ops := fun s hs => h s (List.mem_cons_of_mem _ hs)
    cases op with
    | WriteHeader s => exact absurd (List.mem_cons_self _ _) (h s)
    | Write data => simpa [statusArgs] using ih h'
    | HeaderSet key value => simpa [statusArgs] using ih h'
    | HeaderAdd key value => simpa [statusArgs] using ih h'
    | HeaderDel key => simpa [statusArgs] using ih h'
    | HeaderAssign key values => simpa [statusArgs] using ih h'
    | HeaderDelete key => simpa [statusArgs] using ih h'

/-- Status pass-through away from the abort on an empty sequence of values: for every
sequence of sink operations on a new recorder
(`WriteHeader`, `Write`, and changes of the header map), the recorder's status code is
the argument of the last `WriteHeader`, or `0` if there was none; an Outbound Event
that `convertHTTPResponseToLambdaResponse` returns carries exactly that status; it
returns one whenever no operation assigns an empty sequence of values to a header key;
and `Write` leaves the status code as it is. -/
theorem status_pass_through (ops : List SinkOp) :
    (runOps ops NewResponseRecorder).StatusCode = lastStatus ops ∧
    (∀ pre s post, ops = pre ++ SinkOp.WriteHeader s :: post →
      (∀ s', SinkOp.WriteHeader s' ∉ post) → lastStatus ops = s) ∧
    ((∀ s, SinkOp.WriteHeader s ∉ ops) → lastStatus ops = 0) ∧
    (∀ e, convertHTTPResponseToLambdaResponse (runOps ops NewResponseRecorder) = .ok e →
      e.StatusCode = lastStatus ops) ∧
    ((∀ key, SinkOp.HeaderAssign key [] ∉ ops) →
      ∃ e, convertHTTPResponseToLambdaResponse (runOps ops NewResponseRecorder) = .ok e ∧
        e.StatusCode = lastStatus ops) ∧
    (∀ (r : ResponseRecorder) (data : GoString), (r.Write data).1.StatusCode = r.StatusCode) := by
  have hst : (runOps ops NewResponseRecorder).StatusCode = lastStatus ops := by
    rw [runOps_status]
    rfl
  refine ⟨hst, ?_, ?_, ?_, ?_, fun _ _ => rfl⟩
  · intro pre s post hops hpost
    have hargs : statusArgs ops = statusArgs pre ++ [s] := by
      rw [hops, statusArgs_append]
      simp [statusArgs, statusArgs_eq_nil post hpost]
    simp [lastStatus, hargs]
  · intro hnone
    simp [lastStatus, statusArgs_eq_nil ops hnone]
  · intro e he
    obtain ⟨headers, -, rfl⟩ := (convertResponse_ok_iff _ _).mp he
    exact hst
  · intro hops
    have hne := runOps_noEmptyValues ops NewResponseRecorder hops
      (by simp [NoEmptyValues, NewResponseRecorder])
    obtain ⟨out, hout⟩ := setResponseHeaders_total _ [] hne
    exact ⟨_, (convertResponse_ok_iff _ _).mpr ⟨out, hout, rfl⟩, hst⟩

/-- Status pass-through at a handler that writes, sets status 404, sets a header, writes
again and sets status 200: the Outbound Event has status 200. -/
theorem status_pass_through_example :
    lastStatus [.Write (gostr "a"), .WriteHeader 404, .HeaderSet (gostr "X-A") (gostr "1"),
      .Write (gostr "b"), .WriteHeader 200] = 200 ∧
    ∃ e, convertHTTPResponseToLambdaResponse
        (runOps [.Write (gostr "a"), .WriteHeader 404, .HeaderSet (gostr "X-A") (gostr "1"),
          .Write (gostr "b"), .WriteHeader 200] NewResponseRecorder) = .ok e ∧
      e.StatusCode = lastStatus [.Write (gostr "a"), .WriteHeader 404,
        .HeaderSet (gostr "X-A") (gostr "1"), .Write (gostr "b"), .WriteHeader 200] :=
  ⟨by decide,
   (status_pass_through [.Write (gostr "a"), .WriteHeader 404,
      .HeaderSet (gostr "X-A") (gostr "1"), .Write (gostr "b"), .WriteHeader 200]).2.2.2.2.1
     (by
       intro key hk
       simp at hk)⟩

/-- The entry point when the path parses and the handler returns: the function
returned by `WrapHandler` calls the handler exactly once, with a new recorder (status
code 0, no headers, empty body) and the Generic Request that
`convertLambdaRequestToHTTPRequest` builds, and its outcome is exactly that of
`convertHTTPResponseToLambdaResponse` on the recorder as the handler left it: the
Outbound Event it computes, returned with a nil error.  The event reaches the outcome
only through the handler: two events on which the handler leaves the same recorder
give the same outcome. -/
theorem wrapHandler_of_parse (handler : HandlerFunc) (ev : LambdaFunctionURLRequest)
    (u : Go.url.URL) (h : Go.url.Parse ev.RequestContext.HTTP.Path = .ok u) :
    ∃ req, convertLambdaRequestToHTTPRequest ev = .ok req ∧
      (WrapHandler handler ev).calls =
        [({ StatusCode := 0, HeaderMap := [], Body := ⟨[]⟩ }, req)] ∧
      (WrapHandler handler ev).result =
        (match convertHTTPResponseToLambdaResponse
            (handler { StatusCode := 0, HeaderMap := [], Body := ⟨[]⟩ } req) with
         | .ok lambdaResponse => .ok (lambdaResponse, none)
         | .error p => .error p) ∧
      (∀ e, convertHTTPResponseToLambdaResponse
            (handler { StatusCode := 0, HeaderMap := [], Body := ⟨[]⟩ } req) = .ok e →
        (WrapHandler handler ev).result = .ok (e, none)) ∧
      (∀ ev' req', convertLambdaRequestToHTTPRequest ev' = .ok req' →
        handler NewResponseRecorder req' = handler NewResponseRecorder req →
        (WrapHandler handler ev').result = (WrapHandler handler ev).result) := by
  have hreq := convertRequest_of_parse h
  have hres : ∀ ev₁ req₁, convertLambdaRequestToHTTPRequest ev₁ = .ok req₁ →
      (WrapHandler handler ev₁).calls = [(NewResponseRecorder, req₁)] ∧
      (WrapHandler handler ev₁).result =
        (match convertHTTPResponseToLambdaResponse (handler NewResponseRecorder req₁) with
         | .ok lambdaResponse => .ok (lambdaResponse, none)
         | .error p => .error p) := by
    intro ev₁ req₁ h₁
    unfold WrapHandler
    rw [h₁]
    simp only
    cases hconv : convertHTTPResponseToLambdaResponse (handler NewResponseRecorder req₁) <;>
      simp
  obtain ⟨hc, hr⟩ := hres ev _ hreq
  refine ⟨_, hreq, hc, hr, ?_, ?_⟩
  · intro e he
    rw [hr]
    have he' : convertHTTPResponseToLambdaResponse (handler NewResponseRecorder
        { Method := ev.RequestContext.HTTP.Method, URL := u,
          Header := setRequestHeaders ev.Headers [], Body := NewBufferString ev.Body }) =
        .ok e := he
    rw [he']
  · intro ev' req' h' hsame
    rw [(hres ev' req' h').2, hr, hsame]

/-- The end-to-end scenario: the event `GET /items/42` with header `X-Test: 1`
and a handler that sets status 200 and `Content-Type: text/plain` and writes `ok`
gives the Outbound Event with status 200, that one header and body `ok`, and a nil
error. -/
theorem endToEnd_scenario :
    (WrapHandler
        (fun w _ => runOps [.WriteHeader 200,
          .HeaderSet (gostr "Content-Type") (gostr "text/plain"), .Write (gostr "ok")] w)
        { RequestContext := { HTTP := { Method := gostr "GET", Path := gostr "/items/42" } },
          Headers := [(gostr "X-Test", gostr "1")] }).result =
      .ok ({ StatusCode := 200, Headers := [(gostr "Content-Type", gostr "text/plain")],
             Body := gostr "ok" }, none) := by
  obtain ⟨req, -, -, -, hok, -⟩ := wrapHandler_of_parse
    (fun w _ => runOps [.WriteHeader 200,
      .HeaderSet (gostr "Content-Type") (gostr "text/plain"), .Write (gostr "ok")] w)
    { RequestContext := { HTTP := { Method := gostr "GET", Path := gostr "/items/42" } },
      Headers := [(gostr "X-Test", gostr "1")] }
    { Path := gostr "/items/42" } (by decide)
  apply hok
  rw [convertResponse_ok_iff]
  exact ⟨[(gostr "Content-Type", gostr "text/plain")], by decide, by decide⟩

theorem runOps_body (ops : List SinkOp) :
    ∀ r : ResponseRecorder,
    (runOps ops r).Body.unread = r.Body.unread ++ (writesOf ops).flatten := by
  induction ops with
  | nil => intro r; simp [runOps, writesOf]
  | cons op ops ih =>
    intro r
    have hstep : runOps (op :: ops) r = runOps ops (op.apply r) := rfl
    rw [hstep, ih]
    cases op <;>
      simp [writesOf, SinkOp.apply, ResponseRecorder.WriteHeader, ResponseRecorder.Write,
        Buffer.Write]

/-- Round-trip identity for the body away from the abort on an empty sequence of
values: whatever else a handler does to a new recorder, the recorder's body is the
concatenation of the byte sequences it wrote, in order (empty if it never wrote); an
Outbound Event that `convertHTTPResponseToLambdaResponse` returns carries exactly those
bytes; and it returns one whenever no operation assigns an empty sequence of values to
a header key. -/
theorem body_round_trip (ops : List SinkOp) :
    (runOps ops NewResponseRecorder).Body.unread = (writesOf ops).flatten ∧
    (∀ e, convertHTTPResponseToLambdaResponse (runOps ops NewResponseRecorder) = .ok e →
      e.Body = (writesOf ops).flatten) ∧
    ((∀ key, SinkOp.HeaderAssign key [] ∉ ops) →
      ∃ e, convertHTTPResponseToLambdaResponse (runOps ops NewResponseRecorder) = .ok e ∧
        e.Body = (writesOf ops).flatten) := by
  have hb : (runOps ops NewResponseRecorder).Body.unread = (writesOf ops).flatten := by
    rw [runOps_body]
    simp [NewResponseRecorder, Buffer.new]
  refine ⟨hb, ?_, ?_⟩
  · intro e he
    obtain ⟨headers, -, rfl⟩ := (convertResponse_ok_iff _ _).mp he
    exact hb
  · intro hops
    have hne := runOps_noEmptyValues ops NewResponseRecorder hops
      (by simp [NoEmptyValues, NewResponseRecorder])
    obtain ⟨out, hout⟩ := setResponseHeaders_total _ [] hne
    exact ⟨_, (convertResponse_ok_iff _ _).mpr ⟨out, hout, rfl⟩, hb⟩

/-- C2 (evaluation at the failing input). A handler that never calls `Write` and
suppresses a header with `w.Header()["Date"] = nil`: the recorder's body is empty, as
the claim expects of the Outbound Event, but `convertHTTPResponseToLambdaResponse`
panics on `values[0]` and yields no Outbound Event, and so no empty `Body`. -/
theorem C2_no_body_on_empty_values :
    writesOf [.HeaderAssign (gostr "Date") []] = [] ∧
    (runOps [.HeaderAssign (gostr "Date") []] NewResponseRecorder).Body.unread = [] ∧
    convertHTTPResponseToLambdaResponse
        (runOps [.HeaderAssign (gostr "Date") []] NewResponseRecorder) =
      .error (.indexOutOfRange 0 0) := by
  refine ⟨rfl, by decide, ?_⟩
  simp [convertHTTPResponseToLambdaResponse, runOps, SinkOp.apply, ResponseRecorder.Header,
    NewResponseRecorder, GoMap.assign, setResponseHeaders]

/-- C8 (evaluation at the failing input). A handler that calls `WriteHeader(200)` and
then suppresses a header with `w.Header()["Date"] = nil`: the recorder holds status 200,
the argument of the last `WriteHeader`, but `convertHTTPResponseToLambdaResponse`
panics on `values[0]` and yields no Outbound Event, and so no `StatusCode`. -/
theorem C8_no_status_on_empty_values :
    lastStatus [.WriteHeader 200, .HeaderAssign (gostr "Date") []] = 200 ∧
    (runOps [.WriteHeader 200, .HeaderAssign (gostr "Date") []]
      NewResponseRecorder).StatusCode = 200 ∧
    convertHTTPResponseToLambdaResponse
        (runOps [.WriteHeader 200, .HeaderAssign (gostr "Date") []] NewResponseRecorder) =
      .error (.indexOutOfRange 0 0) := by
  refine ⟨by decide, by decide, ?_⟩
  simp [convertHTTPResponseToLambdaResponse, runOps, SinkOp.apply, ResponseRecorder.Header,
    ResponseRecorder.WriteHeader, NewResponseRecorder, GoMap.assign, setResponseHeaders]

/-- C10 (evaluation at the failing input). The event `GET /items/42` and a handler that
sets status 204 and suppresses a header with `w.Header()["Date"] = nil`: the path
parses and the handler is called exactly once, with a new recorder and the request
built for the event, but the function returned by `WrapHandler` then panics on
`values[0]` in place of returning an Outbound Event with a nil error. -/
theorem C10_wrapper_panics_on_empty_values :
    Go.url.Parse (gostr "/items/42") = .ok { Path := gostr "/items/42" } ∧
    WrapHandler
        (fun w _ => runOps [.WriteHeader 204, .HeaderAssign (gostr "Date") []] w)
        { RequestContext := { HTTP := { Method := gostr "GET", Path := gostr "/items/42" } } } =
      { calls := [({ StatusCode := 0, HeaderMap := [], Body := ⟨[]⟩ },
                   { Method := gostr "GET", URL := { Path := gostr "/items/42" },
                     Header := [], Body := ⟨[]⟩ })],
        result := .error (.indexOutOfRange 0 0) } := by
  refine ⟨by decide, ?_⟩
  have hreq : convertLambdaRequestToHTTPRequest
      { RequestContext := { HTTP := { Method := gostr "GET", Path := gostr "/items/42" } } } =
      .ok { Method := gostr "GET", URL := { Path := gostr "/items/42" }, Header := [],
            Body := ⟨[]⟩ } := by decide
  simp [WrapHandler, hreq, runOps, SinkOp.apply, convertHTTPResponseToLambdaResponse,
    ResponseRecorder.Header, ResponseRecorder.WriteHeader, NewResponseRecorder, GoMap.assign,
    setResponseHeaders, Buffer.new]

end lambdaurl
